import Mathlib

/-!
# RC5-32/12/16 reference implementation (`RC5REF.c`)

A shallow embedding of the cipher core of `RC5REF.c` and the properties its
design document states about it.

Conventions of the embedding.

* A `WORD` is a natural number below `2 ^ 32` (the source says of its `WORD`
  type: "Should be 32-bit = 4 bytes").  Every arithmetic operator of the
  source is written with its reduction modulo `2 ^ 32` spelled out.
* Arrays (`S`, `L`, the key `K`) are lists; every array access goes through
  `rd` / `wr`, which answer `none` outside the bounds of the array.  The
  functions of the source therefore live in `Option`.
* The shifts `<<` and `>>` are given their arithmetic value for every count
  (`x * 2 ^ n` reduced to a word, and `x / 2 ^ n`).  The counts that the
  rotation operators hand to them are exposed by `ROTL_counts` and
  `ROTR_counts`, so that what the counts can be is a statement of its own.
* The `printf` calls are left out of the functions of the embedding; the reads
  of `L` and `S` made by those of `RC5_SETUP` are kept in `RC5_SETUP_printing`.
-/

namespace RC5

/-! ## Parameters (`#define`s and globals of the source) -/

/-- Macro `w` (`#define w 32`): word size in bits. -/
def w : Nat := 32

/-- Macro `r` (`#define r 12`): number of rounds. -/
def r : Nat := 12

/-- Macro `b` (`#define b 16`): number of bytes in key. -/
def b : Nat := 16

/-- Macro `c` (`#define c 4`): number of words in key. -/
def c : Nat := 4

/-- Macro `t` (`#define t 26`): size of table `S`. -/
def t : Nat := 26

/-- Magic constant `P = 0xb7e15163`. -/
def P : Nat := 0xb7e15163

/-- Magic constant `Q = 0x9e3779b9`. -/
def Q : Nat := 0x9e3779b9

/-! ## Word arithmetic -/

/-- Addition `x + y` on `WORD`s. -/
def add32 (x y : Nat) : Nat := (x + y) % 2 ^ w

/-- Subtraction `x - y` on `WORD`s. -/
def sub32 (x y : Nat) : Nat := (x + 2 ^ w - y) % 2 ^ w

/-- Left shift `x << n` on a `WORD`: the bits pushed past the word are lost. -/
def shl (x n : Nat) : Nat := (x <<< n) % 2 ^ w

/-- Right shift `x >> n` on a `WORD` (logical shift: `x` is unsigned). -/
def shr (x n : Nat) : Nat := x >>> n

/-- The counts handed to `<<` and to `>>` by `ROTL(x, y)`:
`y & (w - 1)` and `w - (y & (w - 1))`. -/
def ROTL_counts (y : Nat) : Nat × Nat := (y &&& (w - 1), w - (y &&& (w - 1)))

/-- The counts handed to `>>` and to `<<` by `ROTR(x, y)`:
`y & (w - 1)` and `w - (y & (w - 1))`. -/
def ROTR_counts (y : Nat) : Nat × Nat := (y &&& (w - 1), w - (y &&& (w - 1)))

/-- Macro `#define ROTL(x, y) (((x) << (y & (w - 1))) | ((x) >> (w - (y & (w - 1)))))`. -/
def ROTL (x y : Nat) : Nat := shl x (ROTL_counts y).1 ||| shr x (ROTL_counts y).2

/-- Macro `#define ROTR(x, y) (((x) >> (y & (w - 1))) | ((x) << (w - (y & (w - 1)))))`. -/
def ROTR (x y : Nat) : Nat := shr x (ROTR_counts y).1 ||| shl x (ROTR_counts y).2

/-! ## Arrays -/

/-- Read `a[i]`; `none` when `i` is outside the array. -/
def rd (a : List Nat) (i : Nat) : Option Nat := a[i]?

/-- Write `a[i] = v`; `none` when `i` is outside the array. -/
def wr (a : List Nat) (i v : Nat) : Option (List Nat) :=
  if i < a.length then some (a.set i v) else none

/-! ## `RC5_ENCRYPT` -/

/-- Body of the round loop of `RC5_ENCRYPT` at counter value `i`:
`A = ROTL(A ^ B, B) + S[2 * i]; B = ROTL(B ^ A, A) + S[2 * i + 1];`. -/
def encRound (S : List Nat) (i : Nat) (AB : Nat × Nat) : Option (Nat × Nat) := do
  let s0 ← rd S (2 * i)
  let A := add32 (ROTL (AB.1 ^^^ AB.2) AB.2) s0
  let s1 ← rd S (2 * i + 1)
  let B := add32 (ROTL (AB.2 ^^^ A) A) s1
  pure (A, B)

/-- The loop `for (i = 1; i <= n; i++)` of `RC5_ENCRYPT`, for a round count `n`. -/
def encRounds (S : List Nat) : Nat → Nat × Nat → Option (Nat × Nat)
  | 0, AB => some AB
  | n + 1, AB => do
    let AB' ← encRounds S n AB
    encRound S (n + 1) AB'

/-- Function `RC5_ENCRYPT` with the round count `r` of the source replaced by `n`. -/
def RC5_ENCRYPT_rounds (n : Nat) (S : List Nat) (pt : Nat × Nat) : Option (Nat × Nat) := do
  let s0 ← rd S 0
  let A := add32 pt.1 s0
  let s1 ← rd S 1
  let B := add32 pt.2 s1
  encRounds S n (A, B)

/-- Function `void RC5_ENCRYPT(WORD *pt, WORD *ct)`: the table `S` is the global of the
source, `pt` the two words read, the result the two words stored in `ct`. -/
def RC5_ENCRYPT (S : List Nat) (pt : Nat × Nat) : Option (Nat × Nat) :=
  RC5_ENCRYPT_rounds r S pt

/-! ## `RC5_DECRYPT` -/

/-- Body of the round loop of `RC5_DECRYPT` at counter value `i`:
`B = ROTR(B - S[2 * i + 1], A) ^ A; A = ROTR(A - S[2 * i], B) ^ B;`. -/
def decRound (S : List Nat) (i : Nat) (AB : Nat × Nat) : Option (Nat × Nat) := do
  let s1 ← rd S (2 * i + 1)
  let B := ROTR (sub32 AB.2 s1) AB.1 ^^^ AB.1
  let s0 ← rd S (2 * i)
  let A := ROTR (sub32 AB.1 s0) B ^^^ B
  pure (A, B)

/-- The loop `for (i = n; i > 0; i--)` of `RC5_DECRYPT`, for a round count `n`. -/
def decRounds (S : List Nat) : Nat → Nat × Nat → Option (Nat × Nat)
  | 0, AB => some AB
  | n + 1, AB => do
    let AB' ← decRound S (n + 1) AB
    decRounds S n AB'

/-- Function `RC5_DECRYPT` with the round count `r` of the source replaced by `n`. -/
def RC5_DECRYPT_rounds (n : Nat) (S : List Nat) (ct : Nat × Nat) : Option (Nat × Nat) := do
  let AB ← decRounds S n ct
  let s1 ← rd S 1
  let p1 := sub32 AB.2 s1
  let s0 ← rd S 0
  let p0 := sub32 AB.1 s0
  pure (p0, p1)

/-- Function `void RC5_DECRYPT(WORD *ct, WORD *pt)`: the table `S` is the global of the
source, `ct` the two words read, the result the two words stored in `pt`. -/
def RC5_DECRYPT (S : List Nat) (ct : Nat × Nat) : Option (Nat × Nat) :=
  RC5_DECRYPT_rounds r S ct

/-! ## `RC5_SETUP` -/

/-- Local `u = w / 8`: bytes per word. -/
def u : Nat := w / 8

/-- The value of `-1` converted to `WORD`. -/
def neg1 : Nat := 2 ^ w - 1

/-- Progress measure of the packing loop: the number of decrements left before
the unsigned counter reaches the value of `-1`. -/
def packMeasure (i : Nat) : Nat := if i < 2 ^ w then (i + 1) % 2 ^ w else 2 ^ w

/-- Control of the packing loop `for (i = b - 1, ...; i != -1; i--)`, started
from counter value `i`, around a loop body `body`.  The counter is a `WORD`:
`i--` at `0` wraps to the value of `-1`. -/
def packLoop {σ : Type} (body : Nat → σ → Option σ) (i : Nat) (s : σ) : Option σ :=
  if _h : i ≠ neg1 then
    (body i s).bind (fun s' => packLoop body (sub32 i 1) s')
  else some s
termination_by packMeasure i
decreasing_by
  unfold neg1 w at _h
  unfold packMeasure sub32 w
  have h1 : (i + 2 ^ 32 - 1) % 2 ^ 32 < 2 ^ 32 := Nat.mod_lt _ (by norm_num)
  rw [if_pos h1]
  split <;> omega

/-- Body of the packing loop: `L[i / u] = (L[i / u] << 8) + K[i];`. -/
def packBody (K : List Nat) (i : Nat) (L : List Nat) : Option (List Nat) := do
  let l ← rd L (i / u)
  let k ← rd K i
  wr L (i / u) (add32 (shl l 8) k)

/-- The packing loop of `RC5_SETUP` with its initialisation:
`for (i = b - 1, L[c - 1] = 0; i != -1; i--) L[i / u] = (L[i / u] << 8) + K[i];`
where `L0` is what the local array `L` holds on entry. -/
def packKey (K L0 : List Nat) : Option (List Nat) := do
  let L1 ← wr L0 (c - 1) 0
  packLoop (packBody K) (b - 1) L1

/-- The loop `for (i = 1; i < n + 1; i++) S[i] = S[i - 1] + Q;`. -/
def initLoop : Nat → List Nat → Option (List Nat)
  | 0, S => some S
  | n + 1, S => do
    let S' ← initLoop n S
    let p ← rd S' n
    wr S' (n + 1) (add32 p Q)

/-- Table initialisation `for (S[0] = P, i = 1; i < t; i++) S[i] = S[i - 1] + Q;`. -/
def initS (S0 : List Nat) : Option (List Nat) := do
  let S ← wr S0 0 P
  initLoop (t - 1) S

/-- The variables of the mixing loop. -/
structure Mix where
  A : Nat
  B : Nat
  i : Nat
  j : Nat
  S : List Nat
  L : List Nat
deriving DecidableEq

/-- One pass of the mixing loop:
`A = S[i] = ROTL(S[i] + (A + B), 3); B = L[j] = ROTL(L[j] + (A + B), (A + B));`
followed by `i = (i + 1) % t, j = (j + 1) % c`. -/
def mixStep (m : Mix) : Option Mix := do
  let s ← rd m.S m.i
  let A := ROTL (add32 s (add32 m.A m.B)) 3
  let S ← wr m.S m.i A
  let l ← rd m.L m.j
  let B := ROTL (add32 l (add32 A m.B)) (add32 A m.B)
  let L ← wr m.L m.j B
  pure ⟨A, B, (m.i + 1) % t, (m.j + 1) % c, S, L⟩

/-- The loop `for (...; k < n; k++, ...)` of the mixing pass: `n` passes. -/
def mixLoop : Nat → Mix → Option Mix
  | 0, m => some m
  | n + 1, m => (mixStep m).bind (mixLoop n)

/-- Function `void RC5_SETUP(unsigned char *K)`: `K` is the key, `L0` what the local
array `L` holds on entry, `S0` what the global `S` holds on entry; the result
is the table `S` on return. -/
def RC5_SETUP (K L0 S0 : List Nat) : Option (List Nat) := do
  let L ← packKey K L0
  let S1 ← initS S0
  let m ← mixLoop (3 * t) ⟨0, 0, 0, 0, S1, L⟩
  pure m.S

/-! ## Closed forms used in the statements and proofs -/

/-- The passes of `packLoop` for a counter that starts at `n`, by recursion on
`n`: the bodies at `n`, `n - 1`, ..., `0`. -/
def downFrom {σ : Type} (body : Nat → σ → Option σ) : Nat → σ → Option σ
  | 0, s => body 0 s
  | n + 1, s => (body (n + 1) s).bind (downFrom body n)

/-- The number `K[4k] + 2^8 * K[4k+1] + 2^16 * K[4k+2] + 2^24 * K[4k+3]`: the
four bytes of `K` from index `4k` on, least significant byte first. -/
def le32 (K : List Nat) (k : Nat) : Nat :=
  K.getD (4 * k) 0 + 2 ^ 8 * K.getD (4 * k + 1) 0 + 2 ^ 16 * K.getD (4 * k + 2) 0 +
    2 ^ 24 * K.getD (4 * k + 3) 0

/-- The words `L[0], ..., L[c - 1]` made of the bytes of `K`, least significant
byte first, reduced to 32 bits. -/
def keyWords (K : List Nat) : List Nat :=
  (List.range c).map (fun k => le32 K k % 2 ^ w)

/-- The table `S[i] = P + i * Q` (on 32-bit words), for `i = 0, ..., t - 1`. -/
def initTable : List Nat :=
  (List.range t).map (fun i => (P + i * Q) % 2 ^ w)

/-- Shape of the variables of the mixing loop between two passes. -/
def MixInv (m : Mix) : Prop :=
  m.S.length = t ∧ m.L.length = c ∧ m.i < t ∧ m.j < c ∧ ∀ s ∈ m.S, s < 2 ^ 32

instance decidableMixInv (m : Mix) : Decidable (MixInv m) := by
  unfold MixInv
  infer_instance

/-- The variables of the mixing loop at its entry, for key `K`. -/
def mixStart (K : List Nat) : Mix := ⟨0, 0, 0, 0, initTable, keyWords K⟩

/-- The key of the driver `main`: bytes `00 01 02 ... 0F`. -/
def katKey : List Nat :=
  [0x00, 0x01, 0x02, 0x03, 0x04, 0x05, 0x06, 0x07,
   0x08, 0x09, 0x0A, 0x0B, 0x0C, 0x0D, 0x0E, 0x0F]

/-- The table `S` that `RC5_SETUP` leaves for `katKey`. -/
def katTable : List Nat :=
  [0xd447e233, 0xd82eec20, 0x84fce219, 0xb93353de, 0x5ac2588f, 0x48e922f1, 0x879f5460,
   0x1a693a4b, 0x5171b55f, 0x9a206e4d, 0x9966c4a0, 0xb166b0d7, 0x89cc6827, 0xcbe1b9b7,
   0x1bb7f44f, 0x638829b4, 0x4da0ab3a, 0x74e54561, 0x5eb4dee9, 0xbef10188, 0x728a511f,
   0x37a8debc, 0x5735676a, 0xf96b764a, 0x7aec5407, 0x15e8e206]

/-! ## The algorithms as the design document words them -/

/-- Design document, rotation primitive:
`rotate_left(x, n) = (x << (n mod w)) | (x >> (w - (n mod w)))` on Words. -/
def spec_rotate_left (x n : Nat) : Nat :=
  ((x <<< (n % w)) % 2 ^ w) ||| (x >>> (w - n % w))

/-- Design document, key schedule step 1, the fold of the byte at index `i`:
`L[i / u] = (L[i / u] << 8) + K[i]`. -/
def spec_fold (K : List Nat) (L : List Nat) (i : Nat) : List Nat :=
  L.set (i / u) (((L.getD (i / u) 0 <<< 8) % 2 ^ w + K.getD i 0) % 2 ^ w)

/-- Design document, key schedule step 1: `L` of `c` Words, zero-initialized;
walk the key bytes from index `b - 1` down to `0` and fold each into `L`. -/
def spec_pack (K : List Nat) : List Nat :=
  (List.range b).reverse.foldl (spec_fold K) (List.replicate c 0)

/-- Design document, key schedule step 2: `S[0] = P`; for `i` from `1` to
`t - 1`: `S[i] = S[i - 1] + Q`. -/
def spec_init : List Nat :=
  (List.range' 1 (t - 1)).foldl (fun S i => S.set i ((S.getD (i - 1) 0 + Q) % 2 ^ w))
    ((List.replicate t 0).set 0 P)

/-- Design document, key schedule step 3, one iteration:
`A = S[i] = rotate_left(S[i] + A + B, 3)`,
`B = L[j] = rotate_left(L[j] + A + B, (A + B) mod w)`,
`i = (i + 1) mod t`, `j = (j + 1) mod c`. -/
def spec_mix (m : Mix) : Mix :=
  let A := spec_rotate_left ((m.S.getD m.i 0 + m.A + m.B) % 2 ^ w) 3
  let S := m.S.set m.i A
  let B := spec_rotate_left ((m.L.getD m.j 0 + A + m.B) % 2 ^ w) ((A + m.B) % w)
  let L := m.L.set m.j B
  ⟨A, B, (m.i + 1) % t, (m.j + 1) % c, S, L⟩

/-- Design document, key schedule: pack, initialise, run exactly
`3 * max(t, c)` mixing iterations from `A = B = i = j = 0`, return `S`. -/
def spec_expand (K : List Nat) : List Nat :=
  (Nat.iterate spec_mix (3 * max t c) ⟨0, 0, 0, 0, spec_init, spec_pack K⟩).S

/-- Design document, encrypt: the pair `(A_i, B_i)` with
`A_0 = pt[0] + S[0]`, `B_0 = pt[1] + S[1]` and, for `i ≥ 1`,
`A_i = rotate_left(A_(i-1) xor B_(i-1), B_(i-1) mod w) + S[2i]`,
`B_i = rotate_left(B_(i-1) xor A_i, A_i mod w) + S[2i+1]`. -/
def spec_encrypt (S : List Nat) (pt : Nat × Nat) : Nat → Nat × Nat
  | 0 => ((pt.1 + S.getD 0 0) % 2 ^ w, (pt.2 + S.getD 1 0) % 2 ^ w)
  | i + 1 =>
    let AB := spec_encrypt S pt i
    let A := (spec_rotate_left (AB.1 ^^^ AB.2) (AB.2 % w) + S.getD (2 * (i + 1)) 0) % 2 ^ w
    let B := (spec_rotate_left (AB.2 ^^^ A) (A % w) + S.getD (2 * (i + 1) + 1) 0) % 2 ^ w
    (A, B)

/-! ## Instrumented views of the source, for the statements about its accesses -/

/-- The memory seen by the block functions: the global table `S` and the two
block buffers `pt` and `ct` of the caller, three separate arrays. -/
structure Mem where
  S : List Nat
  pt : List Nat
  ct : List Nat
deriving DecidableEq

/-- Function `RC5_ENCRYPT` as a transformer of the memory: it reads `pt[0]`,
`pt[1]` and the table, and its assignments to memory are `ct[0] = A; ct[1] = B;`. -/
def RC5_ENCRYPT_mem (σ : Mem) : Option Mem := do
  let p0 ← rd σ.pt 0
  let p1 ← rd σ.pt 1
  let AB ← RC5_ENCRYPT σ.S (p0, p1)
  let ct0 ← wr σ.ct 0 AB.1
  let ct1 ← wr ct0 1 AB.2
  pure { σ with ct := ct1 }

/-- Function `RC5_DECRYPT` as a transformer of the memory: it reads `ct[1]`,
`ct[0]` and the table, and its assignments to memory are
`pt[1] = B - S[1]; pt[0] = A - S[0];`. -/
def RC5_DECRYPT_mem (σ : Mem) : Option Mem := do
  let c1 ← rd σ.ct 1
  let c0 ← rd σ.ct 0
  let p ← RC5_DECRYPT σ.S (c0, c1)
  let pt1 ← wr σ.pt 1 p.2
  let pt0 ← wr pt1 0 p.1
  pure { σ with pt := pt0 }

/-- The pairs `(i, j)` held by the mixing loop at the start of each of its
first `n` passes from `m`: the pass reads and assigns `S[i]` and `L[j]`. -/
def mixTrace : Nat → Mix → List (Nat × Nat)
  | 0, _ => []
  | n + 1, m =>
    (m.i, m.j) :: match mixStep m with
      | some m' => mixTrace n m'
      | none => []

/-- Body of the packing loop on a state that also records, in order, the
counter value `i` of every pass. -/
def packBodyLog (K : List Nat) (i : Nat) (s : List Nat × List Nat) :
    Option (List Nat × List Nat) :=
  (packBody K i s.1).map fun L => (L, s.2 ++ [i])

/-- The reads `S[i]` of a diagnostic dump (`printf("%d\n", S[i]);`) at the
indices `is`, in order: the values read, `none` when an index is outside the
array. -/
def dump (S : List Nat) : List Nat → Option (List Nat)
  | [] => some []
  | i :: is => do
    let v ← rd S i
    let vs ← dump S is
    pure (v :: vs)

/-- Indices of `S` read by the dump after the initialisation loop: the loop
`for (i = 0; i < t; i++) printf("%d\n", S[i]);` reads `S[0], ..., S[t - 1]` and
leaves `i = t`; the statement that follows it, `printf("%d\n", S[i]);`, reads
`S[i]` at that value of `i`. -/
def dumpAfterInit : List Nat := List.range t ++ [t]

/-- The value of `sizeof(S)` for `WORD S[t]`: `t` words of `w / 8` bytes. -/
def sizeof_S : Nat := t * (w / 8)

/-- Indices of `S` read by the dump after the mixing loop:
`for (i = 0; i < sizeof(S); i++) printf("%d\n", S[i]);`. -/
def dumpAfterMix : List Nat := List.range sizeof_S

/-- Function `RC5_SETUP` with the reads of its `printf` calls kept: the dump of
`L` after packing, of `S` after initialisation and of `S` after mixing.  The
result is the values printed, in order, and the table `S` on return. -/
def RC5_SETUP_printing (K L0 S0 : List Nat) : Option (List Nat × List Nat) := do
  let L ← packKey K L0
  let out1 ← dump L (List.range c)
  let S1 ← initS S0
  let out2 ← dump S1 dumpAfterInit
  let m ← mixLoop (3 * t) ⟨0, 0, 0, 0, S1, L⟩
  let out3 ← dump m.S dumpAfterMix
  pure (out1 ++ out2 ++ out3, m.S)

/-- The variables of the mixing loop with the cells `X` placed after the table
`S`. -/
def withTail (X : List Nat) (m : Mix) : Mix := ⟨m.A, m.B, m.i, m.j, m.S ++ X, m.L⟩

/-! ## Word arithmetic and rotations -/

theorem mask_eq_mod (y : Nat) : y &&& (w - 1) = y % 32 :=
  Nat.and_pow_two_sub_one_eq_mod y 5

theorem add32_lt (x y : Nat) : add32 x y < 2 ^ 32 := Nat.mod_lt _ (by norm_num)

theorem sub32_lt (x y : Nat) : sub32 x y < 2 ^ 32 := Nat.mod_lt _ (by norm_num)

theorem sub32_add32 (a s : Nat) (ha : a < 2 ^ 32) (hs : s < 2 ^ 32) :
    sub32 (add32 a s) s = a := by
  unfold sub32 add32 w
  omega

theorem add32_sub32 (a s : Nat) (ha : a < 2 ^ 32) (hs : s < 2 ^ 32) :
    add32 (sub32 a s) s = a := by
  unfold sub32 add32 w
  omega

theorem testBit_word {x : Nat} (hx : x < 2 ^ 32) {i : Nat} (hi : 32 ≤ i) :
    x.testBit i = false :=
  Nat.testBit_lt_two_pow (lt_of_lt_of_le hx (Nat.pow_le_pow_right (by norm_num) hi))

theorem testBit_ROTL (x y i : Nat) (hx : x < 2 ^ 32) :
    (ROTL x y).testBit i = (decide (i < 32) && x.testBit ((i + (32 - y % 32)) % 32)) := by
  unfold ROTL ROTL_counts shl shr
  simp only [mask_eq_mod]
  have hs : y % 32 < 32 := Nat.mod_lt _ (by norm_num)
  simp only [w, Nat.testBit_or, Nat.testBit_mod_two_pow, Nat.testBit_shiftLeft,
    Nat.testBit_shiftRight]
  by_cases h1 : i < 32
  · by_cases h2 : y % 32 ≤ i
    · have e1 : (i + (32 - y % 32)) % 32 = i - y % 32 := by omega
      have e2 : x.testBit (32 - y % 32 + i) = false := testBit_word hx (by omega)
      simp [h1, h2, e1, e2]
    · have e1 : (i + (32 - y % 32)) % 32 = 32 - y % 32 + i := by omega
      simp [h1, h2, e1]
  · have e2 : x.testBit (32 - y % 32 + i) = false := testBit_word hx (by omega)
    simp [h1, e2]

theorem testBit_ROTR (x y i : Nat) (hx : x < 2 ^ 32) :
    (ROTR x y).testBit i = (decide (i < 32) && x.testBit ((i + y % 32) % 32)) := by
  unfold ROTR ROTR_counts shl shr
  simp only [mask_eq_mod]
  have hs : y % 32 < 32 := Nat.mod_lt _ (by norm_num)
  simp only [w, Nat.testBit_or, Nat.testBit_mod_two_pow, Nat.testBit_shiftLeft,
    Nat.testBit_shiftRight]
  by_cases h1 : i < 32
  · by_cases h2 : 32 - y % 32 ≤ i
    · have e1 : (i + y % 32) % 32 = i - (32 - y % 32) := by omega
      have e2 : x.testBit (y % 32 + i) = false := testBit_word hx (by omega)
      simp [h1, h2, e1, e2]
    · have e1 : (i + y % 32) % 32 = y % 32 + i := by omega
      simp [h1, h2, e1]
  · have e2 : x.testBit (y % 32 + i) = false := testBit_word hx (by omega)
    simp [h1, e2]

theorem ROTL_lt (x y : Nat) (hx : x < 2 ^ 32) : ROTL x y < 2 ^ 32 := by
  apply Nat.lt_pow_two_of_testBit
  intro i hi
  rw [testBit_ROTL x y i hx]
  simp; omega

theorem ROTR_lt (x y : Nat) (hx : x < 2 ^ 32) : ROTR x y < 2 ^ 32 := by
  apply Nat.lt_pow_two_of_testBit
  intro i hi
  rw [testBit_ROTR x y i hx]
  simp; omega

theorem ROTR_ROTL (x y : Nat) (hx : x < 2 ^ 32) : ROTR (ROTL x y) y = x := by
  apply Nat.eq_of_testBit_eq
  intro i
  rw [testBit_ROTR _ y i (ROTL_lt x y hx), testBit_ROTL x y _ hx]
  by_cases h1 : i < 32
  · have hs : y % 32 < 32 := Nat.mod_lt _ (by norm_num)
    have e : ((i + y % 32) % 32 + (32 - y % 32)) % 32 = i := by omega
    have h3 : (i + y % 32) % 32 < 32 := Nat.mod_lt _ (by norm_num)
    rw [e, decide_eq_true h3, decide_eq_true h1]
    simp
  · simp [h1, testBit_word hx (not_lt.mp h1)]

theorem ROTL_ROTR (x y : Nat) (hx : x < 2 ^ 32) : ROTL (ROTR x y) y = x := by
  apply Nat.eq_of_testBit_eq
  intro i
  rw [testBit_ROTL _ y i (ROTR_lt x y hx), testBit_ROTR x y _ hx]
  by_cases h1 : i < 32
  · have hs : y % 32 < 32 := Nat.mod_lt _ (by norm_num)
    have e : ((i + (32 - y % 32)) % 32 + y % 32) % 32 = i := by omega
    have h3 : (i + (32 - y % 32)) % 32 < 32 := Nat.mod_lt _ (by norm_num)
    rw [e, decide_eq_true h3, decide_eq_true h1]
    simp
  · simp [h1, testBit_word hx (not_lt.mp h1)]
/-! ## Encrypt and decrypt rounds -/

theorem rd_mem {a : List Nat} {i v : Nat} (h : rd a i = some v) : v ∈ a :=
  List.getElem?_mem h

theorem rd_lt {a : List Nat} {i : Nat} (h : i < a.length) : ∃ v, rd a i = some v :=
  ⟨a[i], List.getElem?_eq_getElem h⟩

theorem wr_lt {a : List Nat} {i : Nat} (v : Nat) (h : i < a.length) :
    wr a i v = some (a.set i v) := by
  simp [wr, h]

theorem encRound_some (S : List Nat) (i : Nat) (AB : Nat × Nat) (h : 2 * i + 1 < S.length) :
    ∃ AB', encRound S i AB = some AB' := by
  obtain ⟨s0, h0⟩ := rd_lt (show 2 * i < S.length by omega)
  obtain ⟨s1, h1⟩ := rd_lt h
  simp [encRound, h0, h1]

theorem decRound_some (S : List Nat) (i : Nat) (AB : Nat × Nat) (h : 2 * i + 1 < S.length) :
    ∃ AB', decRound S i AB = some AB' := by
  obtain ⟨s0, h0⟩ := rd_lt (show 2 * i < S.length by omega)
  obtain ⟨s1, h1⟩ := rd_lt h
  simp [decRound, h0, h1]

/-- A decrypt round undoes the encrypt round with the same counter value. -/
theorem decRound_encRound (S : List Nat) (hS : ∀ s ∈ S, s < 2 ^ 32) (i : Nat)
    (AB AB' : Nat × Nat) (hA : AB.1 < 2 ^ 32) (hB : AB.2 < 2 ^ 32)
    (h : encRound S i AB = some AB') :
    decRound S i AB' = some AB ∧ AB'.1 < 2 ^ 32 ∧ AB'.2 < 2 ^ 32 := by
  obtain ⟨A, B⟩ := AB
  simp only [encRound, Option.bind_eq_bind, Option.bind_eq_some, Option.pure_def,
    Option.some.injEq] at h
  obtain ⟨s0, h0, s1, h1, rfl⟩ := h
  have w0 := hS s0 (rd_mem h0)
  have w1 := hS s1 (rd_mem h1)
  simp only at hA hB
  have x1 : A ^^^ B < 2 ^ 32 := Nat.xor_lt_two_pow hA hB
  have r1 := ROTL_lt (A ^^^ B) B x1
  have a1 := add32_lt (ROTL (A ^^^ B) B) s0
  have x2 := Nat.xor_lt_two_pow hB a1
  have r2 := ROTL_lt _ (add32 (ROTL (A ^^^ B) B) s0) x2
  refine ⟨?_, a1, add32_lt _ _⟩
  simp only [decRound, h0, h1, Option.bind_eq_bind, Option.some_bind, Option.pure_def]
  rw [sub32_add32 _ _ r2 w1, ROTR_ROTL _ _ x2, Nat.xor_cancel_right,
    sub32_add32 _ _ r1 w0, ROTR_ROTL _ _ x1, Nat.xor_cancel_right]

/-- An encrypt round undoes the decrypt round with the same counter value. -/
theorem encRound_decRound (S : List Nat) (hS : ∀ s ∈ S, s < 2 ^ 32) (i : Nat)
    (AB AB' : Nat × Nat) (hA : AB.1 < 2 ^ 32) (hB : AB.2 < 2 ^ 32)
    (h : decRound S i AB = some AB') :
    encRound S i AB' = some AB ∧ AB'.1 < 2 ^ 32 ∧ AB'.2 < 2 ^ 32 := by
  obtain ⟨A, B⟩ := AB
  simp only [decRound, Option.bind_eq_bind, Option.bind_eq_some, Option.pure_def,
    Option.some.injEq] at h
  obtain ⟨s1, h1, s0, h0, rfl⟩ := h
  have w0 := hS s0 (rd_mem h0)
  have w1 := hS s1 (rd_mem h1)
  simp only at hA hB
  have r1 := ROTR_lt _ A (sub32_lt B s1)
  have x1 : ROTR (sub32 B s1) A ^^^ A < 2 ^ 32 := Nat.xor_lt_two_pow r1 hA
  have r2 := ROTR_lt _ (ROTR (sub32 B s1) A ^^^ A) (sub32_lt A s0)
  have x2 := Nat.xor_lt_two_pow r2 x1
  refine ⟨?_, x2, x1⟩
  simp only [encRound, h0, h1, Option.bind_eq_bind, Option.some_bind, Option.pure_def]
  rw [Nat.xor_cancel_right, ROTL_ROTR _ _ (sub32_lt A s0), add32_sub32 _ _ hA w0,
    Nat.xor_cancel_right, ROTL_ROTR _ _ (sub32_lt B s1), add32_sub32 _ _ hB w1]

theorem encRounds_some (S : List Nat) (n : Nat) (AB : Nat × Nat) (h : 2 * n + 1 < S.length) :
    ∃ AB', encRounds S n AB = some AB' := by
  induction n with
  | zero => exact ⟨AB, rfl⟩
  | succ n ih =>
    obtain ⟨AB1, h1⟩ := ih (by omega)
    obtain ⟨AB2, h2⟩ := encRound_some S (n + 1) AB1 h
    exact ⟨AB2, by simp [encRounds, h1, h2]⟩

theorem decRounds_some (S : List Nat) (n : Nat) (AB : Nat × Nat) (h : 2 * n + 1 < S.length) :
    ∃ AB', decRounds S n AB = some AB' := by
  induction n generalizing AB with
  | zero => exact ⟨AB, rfl⟩
  | succ n ih =>
    obtain ⟨AB1, h1⟩ := decRound_some S (n + 1) AB h
    obtain ⟨AB2, h2⟩ := ih AB1 (by omega)
    exact ⟨AB2, by simp [decRounds, h1, h2]⟩

theorem decRounds_encRounds (S : List Nat) (hS : ∀ s ∈ S, s < 2 ^ 32) (n : Nat)
    (AB AB' : Nat × Nat) (hA : AB.1 < 2 ^ 32) (hB : AB.2 < 2 ^ 32)
    (h : encRounds S n AB = some AB') :
    decRounds S n AB' = some AB ∧ AB'.1 < 2 ^ 32 ∧ AB'.2 < 2 ^ 32 := by
  induction n generalizing AB' with
  | zero =>
    simp only [encRounds, Option.some.injEq] at h
    subst h
    exact ⟨rfl, hA, hB⟩
  | succ n ih =>
    simp only [encRounds, Option.bind_eq_bind, Option.bind_eq_some] at h
    obtain ⟨AB1, h1, h2⟩ := h
    obtain ⟨e1, a1, b1⟩ := ih AB1 h1
    obtain ⟨e2, a2, b2⟩ := decRound_encRound S hS (n + 1) AB1 AB' a1 b1 h2
    exact ⟨by simp [decRounds, e2, e1], a2, b2⟩

theorem encRounds_decRounds (S : List Nat) (hS : ∀ s ∈ S, s < 2 ^ 32) (n : Nat)
    (AB AB' : Nat × Nat) (hA : AB.1 < 2 ^ 32) (hB : AB.2 < 2 ^ 32)
    (h : decRounds S n AB = some AB') :
    encRounds S n AB' = some AB ∧ AB'.1 < 2 ^ 32 ∧ AB'.2 < 2 ^ 32 := by
  induction n generalizing AB with
  | zero =>
    simp only [decRounds, Option.some.injEq] at h
    subst h
    exact ⟨rfl, hA, hB⟩
  | succ n ih =>
    simp only [decRounds, Option.bind_eq_bind, Option.bind_eq_some] at h
    obtain ⟨AB1, h1, h2⟩ := h
    obtain ⟨e1, a1, b1⟩ := encRound_decRound S hS (n + 1) AB AB1 hA hB h1
    obtain ⟨e2, a2, b2⟩ := ih AB1 a1 b1 h2
    exact ⟨by simp [encRounds, e2, e1], a2, b2⟩

theorem decrypt_encrypt_rounds (n : Nat) (S : List Nat) (p : Nat × Nat)
    (hlen : 2 * n + 1 < S.length) (hS : ∀ s ∈ S, s < 2 ^ 32)
    (hp1 : p.1 < 2 ^ 32) (hp2 : p.2 < 2 ^ 32) :
    ∃ ct, RC5_ENCRYPT_rounds n S p = some ct ∧ RC5_DECRYPT_rounds n S ct = some p ∧
      ct.1 < 2 ^ 32 ∧ ct.2 < 2 ^ 32 := by
  obtain ⟨p0, p1⟩ := p
  obtain ⟨s0, h0⟩ := rd_lt (show 0 < S.length by omega)
  obtain ⟨s1, h1⟩ := rd_lt (show 1 < S.length by omega)
  have w0 := hS s0 (rd_mem h0)
  have w1 := hS s1 (rd_mem h1)
  obtain ⟨ct, hct⟩ := encRounds_some S n (add32 p0 s0, add32 p1 s1) hlen
  obtain ⟨e, a, b'⟩ := decRounds_encRounds S hS n _ ct (add32_lt _ _) (add32_lt _ _) hct
  refine ⟨ct, ?_, ?_, a, b'⟩
  · simp [RC5_ENCRYPT_rounds, h0, h1, hct]
  · simp only at hp1 hp2
    simp [RC5_DECRYPT_rounds, h0, h1, e, sub32_add32 _ _ hp1 w0, sub32_add32 _ _ hp2 w1]

theorem encrypt_decrypt_rounds (n : Nat) (S : List Nat) (ct : Nat × Nat)
    (hlen : 2 * n + 1 < S.length) (hS : ∀ s ∈ S, s < 2 ^ 32)
    (hc1 : ct.1 < 2 ^ 32) (hc2 : ct.2 < 2 ^ 32) :
    ∃ p, RC5_DECRYPT_rounds n S ct = some p ∧ RC5_ENCRYPT_rounds n S p = some ct ∧
      p.1 < 2 ^ 32 ∧ p.2 < 2 ^ 32 := by
  obtain ⟨s0, h0⟩ := rd_lt (show 0 < S.length by omega)
  obtain ⟨s1, h1⟩ := rd_lt (show 1 < S.length by omega)
  have w0 := hS s0 (rd_mem h0)
  have w1 := hS s1 (rd_mem h1)
  obtain ⟨AB, hAB⟩ := decRounds_some S n ct hlen
  obtain ⟨e, a, b'⟩ := encRounds_decRounds S hS n ct AB hc1 hc2 hAB
  refine ⟨(sub32 AB.1 s0, sub32 AB.2 s1), ?_, ?_, sub32_lt _ _, sub32_lt _ _⟩
  · simp [RC5_DECRYPT_rounds, h0, h1, hAB]
  · simp [RC5_ENCRYPT_rounds, h0, h1, add32_sub32 _ _ a w0, add32_sub32 _ _ b' w1, e]

/-! ## The phases of `RC5_SETUP` -/

theorem packLoop_step {σ : Type} (body : Nat → σ → Option σ) (i : Nat) (s : σ)
    (h : i ≠ neg1) : packLoop body i s = (body i s).bind (packLoop body (sub32 i 1)) := by
  rw [packLoop]
  simp only [h, ne_eq, not_false_eq_true, dite_true]

theorem packLoop_exit {σ : Type} (body : Nat → σ → Option σ) (s : σ) :
    packLoop body neg1 s = some s := by
  rw [packLoop]
  simp

theorem packLoop_eq_downFrom {σ : Type} (body : Nat → σ → Option σ) (n : Nat)
    (hn : n < 2 ^ 32 - 1) (s : σ) : packLoop body n s = downFrom body n s := by
  induction n generalizing s with
  | zero =>
    rw [packLoop_step body 0 s (by decide)]
    have e : sub32 0 1 = neg1 := by decide
    rw [e]
    cases h : body 0 s <;> simp [downFrom, h, packLoop_exit]
  | succ n ih =>
    have hne : n + 1 ≠ neg1 := by unfold neg1 w; omega
    have e : sub32 (n + 1) 1 = n := by unfold sub32 w; omega
    rw [packLoop_step body (n + 1) s hne, e]
    cases h : body (n + 1) s with
    | none => simp [downFrom, h]
    | some s' => simp [downFrom, h, ih (by omega) s']

theorem list_length_four (L : List Nat) (h : L.length = 4) :
    ∃ l0 l1 l2 l3, L = [l0, l1, l2, l3] := by
  match L, h with
  | [l0, l1, l2, l3], _ => exact ⟨l0, l1, l2, l3, rfl⟩

/-- Four folds of bytes into a word push out whatever the word held before. -/
theorem fold_four (l k0 k1 k2 k3 : Nat) :
    add32 (shl (add32 (shl (add32 (shl (add32 (shl l 8) k3) 8) k2) 8) k1) 8) k0 =
      (k0 + 2 ^ 8 * k1 + 2 ^ 16 * k2 + 2 ^ 24 * k3) % 2 ^ 32 := by
  simp only [add32, shl, w, Nat.shiftLeft_eq]
  omega

theorem rd_eq_getD {a : List Nat} {i : Nat} (h : i < a.length) : rd a i = some (a.getD i 0) := by
  simp [rd, List.getD_eq_getElem?_getD, List.getElem?_eq_getElem h]

/-- One pass of the packing loop, on arrays that hold the indices it uses. -/
theorem packBody_eq (K L : List Nat) (i k : Nat) (hi : i < K.length) (hk : k < L.length)
    (hik : i / u = k) :
    packBody K i L = some (L.set k (add32 (shl (L.getD k 0) 8) (K.getD i 0))) := by
  simp only [packBody, hik, rd_eq_getD hk, rd_eq_getD hi, wr_lt _ hk, Option.bind_eq_bind,
    Option.some_bind]

theorem getD_set_self (L : List Nat) (k v : Nat) (hk : k < L.length) :
    (L.set k v).getD k 0 = v := by
  simp [List.getD_eq_getElem?_getD, hk]

/-- The four passes of the packing loop that fill word `k`. -/
theorem packBody_four (K L : List Nat) (k : Nat) (hK : 4 * k + 3 < K.length)
    (hk : k < L.length) :
    (((packBody K (4 * k + 3) L).bind (packBody K (4 * k + 2))).bind
      (packBody K (4 * k + 1))).bind (packBody K (4 * k)) =
      some (L.set k (le32 K k % 2 ^ 32)) := by
  have e3 : (4 * k + 3) / u = k := by unfold u w; omega
  have e2 : (4 * k + 2) / u = k := by unfold u w; omega
  have e1 : (4 * k + 1) / u = k := by unfold u w; omega
  have e0 : (4 * k) / u = k := by unfold u w; omega
  rw [packBody_eq K L _ k hK hk e3, Option.some_bind,
    packBody_eq K _ _ k (by omega) (by simpa using hk) e2, Option.some_bind,
    packBody_eq K _ _ k (by omega) (by simpa using hk) e1, Option.some_bind,
    packBody_eq K _ _ k (by omega) (by simpa using hk) e0]
  simp only [List.set_set, getD_set_self _ _ _ hk, fold_four, le32]

theorem downFrom_four {σ : Type} (body : Nat → σ → Option σ) (n : Nat) (s : σ) :
    downFrom body (n + 4) s =
      ((((body (n + 4) s).bind (body (n + 3))).bind (body (n + 2))).bind (body (n + 1))).bind
        (downFrom body n) := by
  simp only [downFrom, Option.bind_assoc]

theorem downFrom_three {σ : Type} (body : Nat → σ → Option σ) (s : σ) :
    downFrom body 3 s = (((body 3 s).bind (body 2)).bind (body 1)).bind (body 0) := by
  simp only [downFrom, Option.bind_assoc]

theorem packKey_eq (K L0 : List Nat) (hK : K.length = b) (hL : L0.length = c) :
    packKey K L0 = some (keyWords K) := by
  obtain ⟨l0, l1, l2, l3, rfl⟩ := list_length_four L0 hL
  have h1 : wr [l0, l1, l2, l3] (c - 1) 0 = some [l0, l1, l2, 0] := rfl
  have h2 : (b - 1 : Nat) = 15 := rfl
  have hK' : K.length = 16 := hK
  rw [packKey, h1, h2]
  simp only [Option.bind_eq_bind, Option.some_bind]
  rw [packLoop_eq_downFrom _ 15 (by norm_num)]
  rw [downFrom_four _ 11, packBody_four K _ 3 (by omega) (by simp), Option.some_bind,
    downFrom_four _ 7, packBody_four K _ 2 (by omega) (by simp), Option.some_bind,
    downFrom_four _ 3, packBody_four K _ 1 (by omega) (by simp), Option.some_bind,
    downFrom_three, packBody_four K _ 0 (by omega) (by simp)]
  rfl

theorem initLoop_spec (n : Nat) (S : List Nat) (hn : n < S.length) (h0 : S[0]? = some P) :
    ∃ S', initLoop n S = some S' ∧ S'.length = S.length ∧
      (∀ i, i ≤ n → S'[i]? = some ((P + i * Q) % 2 ^ 32)) ∧
      (∀ i, n < i → S'[i]? = S[i]?) := by
  induction n with
  | zero =>
    refine ⟨S, rfl, rfl, ?_, fun i _ => rfl⟩
    intro i hi
    have : i = 0 := by omega
    subst this
    rw [h0]
    rfl
  | succ n ih =>
    obtain ⟨S1, e1, len1, low1, high1⟩ := ih (by omega)
    have hrd : rd S1 n = some ((P + n * Q) % 2 ^ 32) := low1 n (le_refl n)
    have hwr := wr_lt (add32 ((P + n * Q) % 2 ^ 32) Q) (show n + 1 < S1.length by omega)
    refine ⟨S1.set (n + 1) (add32 ((P + n * Q) % 2 ^ 32) Q), ?_, ?_, ?_, ?_⟩
    · simp only [initLoop, e1, Option.bind_eq_bind, Option.some_bind, hrd, hwr]
    · rw [List.length_set, len1]
    · intro i hi
      rw [List.getElem?_set]
      by_cases h : n + 1 = i
      · subst h
        simp only [if_true, if_pos (show n + 1 < S1.length by omega), Option.some.injEq]
        unfold add32 w Q
        omega
      · rw [if_neg h]
        exact low1 i (by omega)
    · intro i hi
      rw [List.getElem?_set, if_neg (by omega)]
      exact high1 i (by omega)

theorem initS_eq (S0 : List Nat) (h : S0.length = t) : initS S0 = some initTable := by
  have h0 : 0 < S0.length := by rw [h]; decide
  obtain ⟨S1, e1, len1, low1, _⟩ :=
    initLoop_spec (t - 1) (S0.set 0 P) (by simp [h, t]) (by simp [h0])
  have : S1 = initTable := by
    apply List.ext_getElem?
    intro i
    by_cases hi : i < t
    · rw [low1 i (by omega)]
      simp [initTable, List.getElem?_range hi, w]
    · rw [List.getElem?_eq_none (by simp [len1, h]; omega),
        List.getElem?_eq_none (by simp [initTable]; omega)]
  subst this
  simp [initS, wr_lt P h0, e1]

theorem initTable_length : initTable.length = t := by simp [initTable]

theorem initTable_word : ∀ s ∈ initTable, s < 2 ^ 32 := by
  intro s hs
  simp only [initTable, List.mem_map] at hs
  obtain ⟨i, _, rfl⟩ := hs
  exact Nat.mod_lt _ (by norm_num)

theorem keyWords_length (K : List Nat) : (keyWords K).length = c := by simp [keyWords]

theorem mixStep_some (m : Mix) (h : MixInv m) : ∃ m', mixStep m = some m' ∧ MixInv m' := by
  obtain ⟨hS, hL, hi, hj, hw⟩ := h
  obtain ⟨s, hs⟩ := rd_lt (show m.i < m.S.length by omega)
  obtain ⟨l, hl⟩ := rd_lt (show m.j < m.L.length by omega)
  have hiS : m.i < m.S.length := by omega
  have hjL : m.j < m.L.length := by omega
  have e : mixStep m = some ⟨ROTL (add32 s (add32 m.A m.B)) 3,
      ROTL (add32 l (add32 (ROTL (add32 s (add32 m.A m.B)) 3) m.B))
        (add32 (ROTL (add32 s (add32 m.A m.B)) 3) m.B),
      (m.i + 1) % t, (m.j + 1) % c, m.S.set m.i (ROTL (add32 s (add32 m.A m.B)) 3),
      m.L.set m.j (ROTL (add32 l (add32 (ROTL (add32 s (add32 m.A m.B)) 3) m.B))
        (add32 (ROTL (add32 s (add32 m.A m.B)) 3) m.B))⟩ := by
    simp only [mixStep, hs, hl, wr_lt _ hiS, wr_lt _ hjL, Option.bind_eq_bind,
      Option.some_bind, Option.pure_def]
  refine ⟨_, e, ?_⟩
  refine ⟨by simp [hS], by simp [hL], Nat.mod_lt _ (by decide), Nat.mod_lt _ (by decide), ?_⟩
  intro x hx
  rcases List.mem_or_eq_of_mem_set hx with h1 | h1
  · exact hw x h1
  · rw [h1]
    exact ROTL_lt _ _ (add32_lt _ _)

theorem mixLoop_some (n : Nat) (m : Mix) (h : MixInv m) :
    ∃ m', mixLoop n m = some m' ∧ MixInv m' := by
  induction n generalizing m with
  | zero => exact ⟨m, rfl, h⟩
  | succ n ih =>
    obtain ⟨m1, e1, inv1⟩ := mixStep_some m h
    obtain ⟨m2, e2, inv2⟩ := ih m1 inv1
    exact ⟨m2, by simp [mixLoop, e1, e2], inv2⟩

theorem mixStart_inv (K : List Nat) : MixInv (mixStart K) :=
  ⟨initTable_length, keyWords_length K, show 0 < 26 by decide, show 0 < 4 by decide,
    initTable_word⟩

theorem RC5_SETUP_eq (K L0 S0 : List Nat) (hK : K.length = b) (hL : L0.length = c)
    (hS : S0.length = t) :
    RC5_SETUP K L0 S0 = (mixLoop (3 * t) (mixStart K)).map Mix.S := by
  unfold RC5_SETUP
  rw [packKey_eq K L0 hK hL, initS_eq S0 hS]
  simp only [Option.bind_eq_bind, Option.some_bind, mixStart]
  cases mixLoop (3 * t) ⟨0, 0, 0, 0, initTable, keyWords K⟩ <;> rfl

/-- The table left by `RC5_SETUP` is a table of `t` 32-bit words. -/
theorem RC5_SETUP_table (K L0 S0 : List Nat) (hK : K.length = b) (hL : L0.length = c)
    (hS : S0.length = t) :
    ∃ S, RC5_SETUP K L0 S0 = some S ∧ S.length = t ∧ ∀ s ∈ S, s < 2 ^ 32 := by
  obtain ⟨m, e, inv⟩ := mixLoop_some (3 * t) (mixStart K) (mixStart_inv K)
  exact ⟨m.S, by rw [RC5_SETUP_eq K L0 S0 hK hL hS, e]; rfl, inv.1, inv.2.2.2.2⟩

/-! ## The source against the design document -/

theorem ROTL_congr (x y y' : Nat) (h : y % 32 = y' % 32) : ROTL x y = ROTL x y' := by
  simp only [ROTL, ROTL_counts, mask_eq_mod, h]

theorem ROTR_congr (x y y' : Nat) (h : y % 32 = y' % 32) : ROTR x y = ROTR x y' := by
  simp only [ROTR, ROTR_counts, mask_eq_mod, h]

theorem ROTL_zero (x y : Nat) (hx : x < 2 ^ 32) (hy : y % 32 = 0) : ROTL x y = x := by
  apply Nat.eq_of_testBit_eq
  intro i
  rw [testBit_ROTL x y i hx, hy]
  by_cases h1 : i < 32
  · have e : (i + (32 - 0)) % 32 = i := by omega
    rw [e, decide_eq_true h1, Bool.true_and]
  · simp [h1, testBit_word hx (not_lt.mp h1)]

theorem ROTR_zero (x y : Nat) (hx : x < 2 ^ 32) (hy : y % 32 = 0) : ROTR x y = x := by
  apply Nat.eq_of_testBit_eq
  intro i
  rw [testBit_ROTR x y i hx, hy]
  by_cases h1 : i < 32
  · have e : (i + 0) % 32 = i := by omega
    rw [e, decide_eq_true h1, Bool.true_and]
  · simp [h1, testBit_word hx (not_lt.mp h1)]

theorem spec_rotate_left_eq (x n : Nat) : spec_rotate_left x n = ROTL x n := by
  simp only [spec_rotate_left, ROTL, ROTL_counts, shl, shr, mask_eq_mod]
  rfl

theorem spec_rotate_left_mod (x n : Nat) : spec_rotate_left x (n % w) = ROTL x n := by
  rw [spec_rotate_left_eq]
  exact ROTL_congr _ _ _ (Nat.mod_mod _ _)

/-- A pass of the mixing loop is an iteration of step 3 of the design document. -/
theorem mixStep_eq_spec_mix (m : Mix) (h : MixInv m) : mixStep m = some (spec_mix m) := by
  obtain ⟨hS, hL, hi, hj, _⟩ := h
  have hiS : m.i < m.S.length := by omega
  have hjL : m.j < m.L.length := by omega
  have e1 : add32 (m.S.getD m.i 0) (add32 m.A m.B) = (m.S.getD m.i 0 + m.A + m.B) % 2 ^ w := by
    unfold add32 w
    omega
  have e2 : ∀ A : Nat, add32 (m.L.getD m.j 0) (add32 A m.B) =
      (m.L.getD m.j 0 + A + m.B) % 2 ^ w := by
    intro A
    unfold add32 w
    omega
  have e3 : ∀ x A : Nat, ROTL x (add32 A m.B) = spec_rotate_left x ((A + m.B) % w) := by
    intro x A
    rw [spec_rotate_left_mod]
    apply ROTL_congr
    unfold add32 w
    omega
  simp only [mixStep, rd_eq_getD hiS, rd_eq_getD hjL, wr_lt _ hiS, wr_lt _ hjL,
    Option.bind_eq_bind, Option.some_bind, Option.pure_def, e1, e2, e3, spec_mix,
    spec_rotate_left_eq]

theorem spec_mix_inv (m : Mix) (h : MixInv m) : MixInv (spec_mix m) := by
  obtain ⟨m', e, inv⟩ := mixStep_some m h
  rw [mixStep_eq_spec_mix m h] at e
  cases e
  exact inv

theorem mixLoop_eq_iterate (n : Nat) (m : Mix) (h : MixInv m) :
    mixLoop n m = some (Nat.iterate spec_mix n m) := by
  induction n generalizing m with
  | zero => rfl
  | succ n ih =>
    rw [mixLoop, mixStep_eq_spec_mix m h, Option.some_bind, ih _ (spec_mix_inv m h)]
    rfl

theorem spec_init_eq : spec_init = initTable := by decide!

theorem spec_fold_eq (K L : List Nat) (i k : Nat) (hik : i / u = k) :
    spec_fold K L i = L.set k (add32 (shl (L.getD k 0) 8) (K.getD i 0)) := by
  simp only [spec_fold, hik, add32, shl]

theorem spec_fold_four (K L : List Nat) (k : Nat) (hk : k < L.length) :
    spec_fold K (spec_fold K (spec_fold K (spec_fold K L (4 * k + 3)) (4 * k + 2)) (4 * k + 1))
      (4 * k) = L.set k (le32 K k % 2 ^ 32) := by
  have e3 : (4 * k + 3) / u = k := by unfold u w; omega
  have e2 : (4 * k + 2) / u = k := by unfold u w; omega
  have e1 : (4 * k + 1) / u = k := by unfold u w; omega
  have e0 : (4 * k) / u = k := by unfold u w; omega
  rw [spec_fold_eq K L _ k e3, spec_fold_eq K _ _ k e2, spec_fold_eq K _ _ k e1,
    spec_fold_eq K _ _ k e0]
  simp only [List.set_set, getD_set_self _ _ _ hk, fold_four, le32]

theorem spec_pack_eq (K : List Nat) : spec_pack K = keyWords K := by
  have hr : (List.range b).reverse = [15, 14, 13, 12, 11, 10, 9, 8, 7, 6, 5, 4, 3, 2, 1, 0] := by
    decide
  have hz : List.replicate c 0 = [0, 0, 0, 0] := rfl
  have h3 := spec_fold_four K [0, 0, 0, 0] 3 (by simp)
  have h2 := spec_fold_four K ([0, 0, 0, 0].set 3 (le32 K 3 % 2 ^ 32)) 2 (by simp)
  have h1 := spec_fold_four K
    (([0, 0, 0, 0].set 3 (le32 K 3 % 2 ^ 32)).set 2 (le32 K 2 % 2 ^ 32)) 1 (by simp)
  have h0 := spec_fold_four K
    ((([0, 0, 0, 0].set 3 (le32 K 3 % 2 ^ 32)).set 2 (le32 K 2 % 2 ^ 32)).set 1
      (le32 K 1 % 2 ^ 32)) 0 (by simp)
  simp only [Nat.reduceMul, Nat.reduceAdd] at h3 h2 h1 h0
  unfold spec_pack
  rw [hr, hz]
  simp only [List.foldl]
  rw [h3, h2, h1, h0]
  rfl

theorem RC5_SETUP_eq_spec (K L0 S0 : List Nat) (hK : K.length = b) (hL : L0.length = c)
    (hS : S0.length = t) : RC5_SETUP K L0 S0 = some (spec_expand K) := by
  rw [RC5_SETUP_eq K L0 S0 hK hL hS, mixLoop_eq_iterate _ _ (mixStart_inv K)]
  simp only [Option.map_some', spec_expand, spec_init_eq, spec_pack_eq, mixStart]
  rfl

theorem encRounds_eq_spec (S : List Nat) (pt : Nat × Nat) (n : Nat) (h : 2 * n + 1 < S.length) :
    encRounds S n (spec_encrypt S pt 0) = some (spec_encrypt S pt n) := by
  induction n with
  | zero => rfl
  | succ n ih =>
    have h0 : 2 * (n + 1) < S.length := by omega
    rw [encRounds, ih (by omega)]
    simp only [Option.bind_eq_bind, Option.some_bind, encRound, rd_eq_getD h0, rd_eq_getD h,
      Option.pure_def, spec_encrypt, spec_rotate_left_mod, add32]

theorem RC5_ENCRYPT_rounds_eq_spec (n : Nat) (S : List Nat) (pt : Nat × Nat)
    (h : 2 * n + 1 < S.length) :
    RC5_ENCRYPT_rounds n S pt = some (spec_encrypt S pt n) := by
  have h0 : 0 < S.length := by omega
  have h1 : 1 < S.length := by omega
  simp only [RC5_ENCRYPT_rounds, rd_eq_getD h0, rd_eq_getD h1, Option.bind_eq_bind,
    Option.some_bind]
  exact encRounds_eq_spec S pt n h

/-! ## The statements of the design document -/

/-- C1. Round trip: for every 26-word table `S` of 32-bit words and every block
`p` of two 32-bit words, `RC5_ENCRYPT` returns a block `ct`, and `RC5_DECRYPT`
applied to `ct` under the same `S` returns `p`; in particular this holds under
the table that `RC5_SETUP` returns for any 16-byte key `K`. -/
theorem RC5_DECRYPT_RC5_ENCRYPT (S : List Nat) (p : Nat × Nat)
    (hlen : S.length = t) (hS : ∀ s ∈ S, s < 2 ^ w)
    (hp1 : p.1 < 2 ^ w) (hp2 : p.2 < 2 ^ w) :
    (∃ ct, RC5_ENCRYPT S p = some ct ∧ RC5_DECRYPT S ct = some p) ∧
    ∀ K L0 S0 : List Nat, K.length = b → L0.length = c → S0.length = t →
      ∃ S' ct, RC5_SETUP K L0 S0 = some S' ∧ RC5_ENCRYPT S' p = some ct ∧
        RC5_DECRYPT S' ct = some p := by
  constructor
  · obtain ⟨ct, h1, h2, _⟩ :=
      decrypt_encrypt_rounds r S p (by rw [hlen]; decide) hS hp1 hp2
    exact ⟨ct, h1, h2⟩
  · intro K L0 S0 hK hL hS0
    obtain ⟨S', e, len', word'⟩ := RC5_SETUP_table K L0 S0 hK hL hS0
    obtain ⟨ct, h1, h2, _⟩ :=
      decrypt_encrypt_rounds r S' p (by rw [len']; decide) word' hp1 hp2
    exact ⟨S', ct, e, h1, h2⟩

theorem RC5_DECRYPT_RC5_ENCRYPT_witness :
    (katTable.length = t ∧ (∀ s ∈ katTable, s < 2 ^ w) ∧
      (0x33221100, 0x77665544).1 < 2 ^ w ∧ (0x33221100, 0x77665544).2 < 2 ^ w) ∧
    ((∃ ct, RC5_ENCRYPT katTable (0x33221100, 0x77665544) = some ct ∧
      RC5_DECRYPT katTable ct = some (0x33221100, 0x77665544)) ∧
    ∀ K L0 S0 : List Nat, K.length = b → L0.length = c → S0.length = t →
      ∃ S' ct, RC5_SETUP K L0 S0 = some S' ∧
        RC5_ENCRYPT S' (0x33221100, 0x77665544) = some ct ∧
        RC5_DECRYPT S' ct = some (0x33221100, 0x77665544)) :=
  ⟨⟨by decide, by decide, by decide, by decide⟩,
    RC5_DECRYPT_RC5_ENCRYPT katTable (0x33221100, 0x77665544) (by decide) (by decide)
      (by decide) (by decide)⟩

/-- C2. Known-answer test: whatever the arrays `L` and `S` hold on entry,
`RC5_SETUP` on the key `00 01 02 ... 0F` returns a table under which
`RC5_ENCRYPT` maps the words `(0x33221100, 0x77665544)` to
`(0x9B14DC2D, 0x9E8B08CF)`, the words of the bytes `2D DC 14 9B CF 08 8B 9E`
taken least significant byte first. -/
theorem RC5_known_answer (L0 S0 : List Nat) (hL : L0.length = c) (hS : S0.length = t) :
    (∃ S, RC5_SETUP [0x00, 0x01, 0x02, 0x03, 0x04, 0x05, 0x06, 0x07,
        0x08, 0x09, 0x0A, 0x0B, 0x0C, 0x0D, 0x0E, 0x0F] L0 S0 = some S ∧
      RC5_ENCRYPT S (0x33221100, 0x77665544) = some (0x9B14DC2D, 0x9E8B08CF)) ∧
    le32 [0x2D, 0xDC, 0x14, 0x9B, 0xCF, 0x08, 0x8B, 0x9E] 0 = 0x9B14DC2D ∧
    le32 [0x2D, 0xDC, 0x14, 0x9B, 0xCF, 0x08, 0x8B, 0x9E] 1 = 0x9E8B08CF ∧
    le32 [0x00, 0x11, 0x22, 0x33, 0x44, 0x55, 0x66, 0x77] 0 = 0x33221100 ∧
    le32 [0x00, 0x11, 0x22, 0x33, 0x44, 0x55, 0x66, 0x77] 1 = 0x77665544 := by
  refine ⟨⟨katTable, ?_, by decide!⟩, by decide, by decide, by decide, by decide⟩
  have e : (mixLoop (3 * t) (mixStart katKey)).map Mix.S = some katTable := by decide!
  rw [← e]
  exact RC5_SETUP_eq katKey L0 S0 rfl hL hS

theorem RC5_known_answer_witness :
    ([0, 0, 0, 0].length = c ∧ (List.replicate 26 0).length = t) ∧
    ((∃ S, RC5_SETUP [0x00, 0x01, 0x02, 0x03, 0x04, 0x05, 0x06, 0x07,
        0x08, 0x09, 0x0A, 0x0B, 0x0C, 0x0D, 0x0E, 0x0F] [0, 0, 0, 0]
          (List.replicate 26 0) = some S ∧
      RC5_ENCRYPT S (0x33221100, 0x77665544) = some (0x9B14DC2D, 0x9E8B08CF)) ∧
    le32 [0x2D, 0xDC, 0x14, 0x9B, 0xCF, 0x08, 0x8B, 0x9E] 0 = 0x9B14DC2D ∧
    le32 [0x2D, 0xDC, 0x14, 0x9B, 0xCF, 0x08, 0x8B, 0x9E] 1 = 0x9E8B08CF ∧
    le32 [0x00, 0x11, 0x22, 0x33, 0x44, 0x55, 0x66, 0x77] 0 = 0x33221100 ∧
    le32 [0x00, 0x11, 0x22, 0x33, 0x44, 0x55, 0x66, 0x77] 1 = 0x77665544) :=
  ⟨⟨by decide, by decide⟩,
    RC5_known_answer [0, 0, 0, 0] (List.replicate 26 0) (by decide) (by decide)⟩

/-- C3. Key schedule: for every 16-byte key `K`, whatever the arrays `L` and
`S` hold on entry, `RC5_SETUP` returns the table of the key schedule of the
design document (`spec_expand`: little-endian packing into `c = 4` zeroed
words, `S[0] = P`, `S[i] = S[i-1] + Q`, then `3 * max(t, c) = 78` mixing
iterations from `A = B = i = j = 0`). -/
theorem RC5_SETUP_refines_spec_expand (K L0 S0 : List Nat) (hK : K.length = b)
    (hL : L0.length = c) (hS : S0.length = t) :
    RC5_SETUP K L0 S0 = some (spec_expand K) ∧ 3 * max t c = 78 :=
  ⟨RC5_SETUP_eq_spec K L0 S0 hK hL hS, by decide⟩

theorem RC5_SETUP_refines_spec_expand_witness :
    (katKey.length = b ∧ [1, 2, 3, 4].length = c ∧ (List.replicate 26 7).length = t) ∧
    (RC5_SETUP katKey [1, 2, 3, 4] (List.replicate 26 7) = some (spec_expand katKey) ∧
      3 * max t c = 78) :=
  ⟨⟨by decide, by decide, by decide⟩,
    RC5_SETUP_refines_spec_expand katKey [1, 2, 3, 4] (List.replicate 26 7) (by decide)
      (by decide) (by decide)⟩

/-- C4. Encrypt: for every 26-word table `S` and every block `pt`,
`RC5_ENCRYPT` returns `(A_12, B_12)` of the recurrence of the design document
(`spec_encrypt`): `A_0 = pt[0] + S[0]`, `B_0 = pt[1] + S[1]`,
`A_i = rotate_left(A_(i-1) xor B_(i-1), B_(i-1) mod 32) + S[2i]`,
`B_i = rotate_left(B_(i-1) xor A_i, A_i mod 32) + S[2i+1]`, additions modulo
`2^32`. -/
theorem RC5_ENCRYPT_refines_spec_encrypt (S : List Nat) (pt : Nat × Nat)
    (hlen : S.length = t) :
    RC5_ENCRYPT S pt = some (spec_encrypt S pt 12) :=
  RC5_ENCRYPT_rounds_eq_spec r S pt (by rw [hlen]; decide)

theorem RC5_ENCRYPT_refines_spec_encrypt_witness :
    katTable.length = t ∧
    RC5_ENCRYPT katTable (0x33221100, 0x77665544) =
      some (spec_encrypt katTable (0x33221100, 0x77665544) 12) :=
  ⟨by decide, RC5_ENCRYPT_refines_spec_encrypt katTable (0x33221100, 0x77665544) (by decide)⟩

/-- C5. Inverse in the other direction: for every 26-word table `S` of 32-bit
words and every block `ct` of two 32-bit words, `RC5_DECRYPT` returns a block
`p` of two 32-bit words, `RC5_ENCRYPT` applied to `p` under the same `S`
returns `ct`, and `p` is the only block of two 32-bit words that `RC5_ENCRYPT`
maps to `ct` (encryption under `S` is a bijection on blocks). -/
theorem RC5_ENCRYPT_RC5_DECRYPT (S : List Nat) (ct : Nat × Nat)
    (hlen : S.length = t) (hS : ∀ s ∈ S, s < 2 ^ w)
    (hc1 : ct.1 < 2 ^ w) (hc2 : ct.2 < 2 ^ w) :
    ∃ p, RC5_DECRYPT S ct = some p ∧ RC5_ENCRYPT S p = some ct ∧
      p.1 < 2 ^ w ∧ p.2 < 2 ^ w ∧
      ∀ p' : Nat × Nat, p'.1 < 2 ^ w → p'.2 < 2 ^ w → RC5_ENCRYPT S p' = some ct → p' = p := by
  have hlen' : 2 * r + 1 < S.length := by rw [hlen]; decide
  obtain ⟨p, h1, h2, w1, w2⟩ := encrypt_decrypt_rounds r S ct hlen' hS hc1 hc2
  refine ⟨p, h1, h2, w1, w2, ?_⟩
  intro p' hp1 hp2 he
  obtain ⟨ct', e1, e2, _⟩ := decrypt_encrypt_rounds r S p' hlen' hS hp1 hp2
  have hct : ct' = ct := Option.some.inj (e1.symm.trans he)
  rw [hct] at e2
  exact (Option.some.inj (e2.symm.trans h1))

theorem RC5_ENCRYPT_RC5_DECRYPT_witness :
    (katTable.length = t ∧ (∀ s ∈ katTable, s < 2 ^ w) ∧
      (0x9B14DC2D, 0x9E8B08CF).1 < 2 ^ w ∧ (0x9B14DC2D, 0x9E8B08CF).2 < 2 ^ w) ∧
    ∃ p, RC5_DECRYPT katTable (0x9B14DC2D, 0x9E8B08CF) = some p ∧
      RC5_ENCRYPT katTable p = some (0x9B14DC2D, 0x9E8B08CF) ∧ p.1 < 2 ^ w ∧ p.2 < 2 ^ w ∧
      ∀ p' : Nat × Nat, p'.1 < 2 ^ w → p'.2 < 2 ^ w →
        RC5_ENCRYPT katTable p' = some (0x9B14DC2D, 0x9E8B08CF) → p' = p :=
  ⟨⟨by decide, by decide, by decide, by decide⟩,
    RC5_ENCRYPT_RC5_DECRYPT katTable (0x9B14DC2D, 0x9E8B08CF) (by decide) (by decide)
      (by decide) (by decide)⟩

/-- C6. Determinism of key expansion: for every 16-byte key `K`, `RC5_SETUP`
returns a table, and it returns the same table whatever the local array `L`
and the global `S` hold on entry. -/
theorem RC5_SETUP_deterministic (K L0 S0 L0' S0' : List Nat) (hK : K.length = b)
    (hL : L0.length = c) (hS : S0.length = t) (hL' : L0'.length = c) (hS' : S0'.length = t) :
    ∃ S, RC5_SETUP K L0 S0 = some S ∧ RC5_SETUP K L0' S0' = some S := by
  obtain ⟨S, e, _⟩ := RC5_SETUP_table K L0 S0 hK hL hS
  refine ⟨S, e, ?_⟩
  rw [RC5_SETUP_eq K L0' S0' hK hL' hS', ← RC5_SETUP_eq K L0 S0 hK hL hS, e]

theorem RC5_SETUP_deterministic_witness :
    (katKey.length = b ∧ [0, 0, 0, 0].length = c ∧ (List.replicate 26 0).length = t ∧
      [0xdeadbeef, 2, 3, 4].length = c ∧ katTable.length = t) ∧
    ∃ S, RC5_SETUP katKey [0, 0, 0, 0] (List.replicate 26 0) = some S ∧
      RC5_SETUP katKey [0xdeadbeef, 2, 3, 4] katTable = some S :=
  ⟨⟨by decide, by decide, by decide, by decide, by decide⟩,
    RC5_SETUP_deterministic katKey [0, 0, 0, 0] (List.replicate 26 0) [0xdeadbeef, 2, 3, 4]
      katTable (by decide) (by decide) (by decide) (by decide) (by decide)⟩

/-- C7. Little-endian packing: for every key `K` of 16 bytes and whatever the
local array `L` holds on entry, the packing loop leaves 4 words with
`L[k] = K[4k] + 2^8 * K[4k+1] + 2^16 * K[4k+2] + 2^24 * K[4k+3]` for `k = 0..3`,
the same words it leaves when started on a zeroed `L`. -/
theorem packKey_little_endian (K L0 : List Nat) (hK : K.length = b)
    (hbyte : ∀ k ∈ K, k < 256) (hL : L0.length = c) :
    ∃ L, packKey K L0 = some L ∧ L.length = c ∧
      (∀ k, k < c → L[k]? = some (K.getD (4 * k) 0 + 2 ^ 8 * K.getD (4 * k + 1) 0 +
        2 ^ 16 * K.getD (4 * k + 2) 0 + 2 ^ 24 * K.getD (4 * k + 3) 0)) ∧
      packKey K (List.replicate c 0) = some L := by
  refine ⟨keyWords K, packKey_eq K L0 hK hL, keyWords_length K, ?_,
    packKey_eq K _ hK (by simp)⟩
  intro k hk
  have hget : ∀ i, K.getD i 0 < 256 := by
    intro i
    by_cases hi : i < K.length
    · rw [List.getD_eq_getElem _ _ hi]
      exact hbyte _ (List.getElem_mem _)
    · rw [List.getD_eq_default _ _ (by omega)]
      decide
  have h0 := hget (4 * k)
  have h1 := hget (4 * k + 1)
  have h2 := hget (4 * k + 2)
  have h3 := hget (4 * k + 3)
  simp only [keyWords, List.getElem?_map, List.getElem?_range hk, Option.map_some', le32, w,
    Option.some.injEq]
  omega

theorem packKey_little_endian_witness :
    (katKey.length = b ∧ (∀ k ∈ katKey, k < 256) ∧ [9, 9, 9, 9].length = c) ∧
    ∃ L, packKey katKey [9, 9, 9, 9] = some L ∧ L.length = c ∧
      (∀ k, k < c → L[k]? = some (katKey.getD (4 * k) 0 + 2 ^ 8 * katKey.getD (4 * k + 1) 0 +
        2 ^ 16 * katKey.getD (4 * k + 2) 0 + 2 ^ 24 * katKey.getD (4 * k + 3) 0)) ∧
      packKey katKey (List.replicate c 0) = some L :=
  ⟨⟨by decide, by decide, by decide⟩,
    packKey_little_endian katKey [9, 9, 9, 9] (by decide) (by decide) (by decide)⟩

/-- C8. Table initialisation: whatever the global `S` holds on entry, after
the initialisation loop `S[i] = (0xb7e15163 + i * 0x9e3779b9) mod 2^32` for
every `i` in `0..25`; the key is not an input of the loop. -/
theorem initS_arithmetic_progression (S0 : List Nat) (h : S0.length = t) :
    ∃ S, initS S0 = some S ∧ S.length = 26 ∧
      ∀ i, i < 26 → S[i]? = some ((0xb7e15163 + i * 0x9e3779b9) % 2 ^ 32) := by
  refine ⟨initTable, initS_eq S0 h, initTable_length, ?_⟩
  intro i hi
  simp [initTable, List.getElem?_range (show i < t from hi), w, P, Q]

theorem initS_arithmetic_progression_witness :
    katTable.length = t ∧
    ∃ S, initS katTable = some S ∧ S.length = 26 ∧
      ∀ i, i < 26 → S[i]? = some ((0xb7e15163 + i * 0x9e3779b9) % 2 ^ 32) :=
  ⟨by decide, initS_arithmetic_progression katTable (by decide)⟩

/-- C9. Rotations: for every 32-bit word `x` and every `y`, `ROTL(x, y)` and
`ROTR(x, y)` are 32-bit words; bit `i` of `x` is bit `(i + y mod 32) mod 32` of
`ROTL(x, y)`, and bit `i` of `ROTR(x, y)` is bit `(i + y mod 32) mod 32` of `x`;
when `y mod 32 = 0` both are `x`; and both depend on `y` only through
`y mod 32`. -/
theorem ROTL_ROTR_circular (x y : Nat) (hx : x < 2 ^ w) :
    (ROTL x y < 2 ^ w ∧ ∀ i, i < w → (ROTL x y).testBit ((i + y % w) % w) = x.testBit i) ∧
    (ROTR x y < 2 ^ w ∧ ∀ i, i < w → (ROTR x y).testBit i = x.testBit ((i + y % w) % w)) ∧
    (y % w = 0 → ROTL x y = x ∧ ROTR x y = x) ∧
    (∀ y', y' % w = y % w → ROTL x y' = ROTL x y ∧ ROTR x y' = ROTR x y) := by
  have hx' : x < 2 ^ 32 := hx
  refine ⟨⟨ROTL_lt x y hx', ?_⟩, ⟨ROTR_lt x y hx', ?_⟩, ?_, ?_⟩
  · intro i hi
    have hi' : i < 32 := hi
    have hs : y % 32 < 32 := Nat.mod_lt _ (by norm_num)
    have h3 : (i + y % 32) % 32 < 32 := Nat.mod_lt _ (by norm_num)
    have e : ((i + y % 32) % 32 + (32 - y % 32)) % 32 = i := by omega
    show (ROTL x y).testBit ((i + y % 32) % 32) = x.testBit i
    rw [testBit_ROTL x y _ hx', e, decide_eq_true h3, Bool.true_and]
  · intro i hi
    have hi' : i < 32 := hi
    show (ROTR x y).testBit i = x.testBit ((i + y % 32) % 32)
    rw [testBit_ROTR x y _ hx', decide_eq_true hi', Bool.true_and]
  · intro hy
    exact ⟨ROTL_zero x y hx' hy, ROTR_zero x y hx' hy⟩
  · intro y' hy
    exact ⟨ROTL_congr x y' y hy, ROTR_congr x y' y hy⟩

theorem ROTL_ROTR_circular_witness :
    0x80000001 < 2 ^ w ∧
    ((ROTL 0x80000001 33 < 2 ^ w ∧
      ∀ i, i < w → (ROTL 0x80000001 33).testBit ((i + 33 % w) % w) = (0x80000001).testBit i) ∧
    (ROTR 0x80000001 33 < 2 ^ w ∧
      ∀ i, i < w → (ROTR 0x80000001 33).testBit i = (0x80000001).testBit ((i + 33 % w) % w)) ∧
    (33 % w = 0 → ROTL 0x80000001 33 = 0x80000001 ∧ ROTR 0x80000001 33 = 0x80000001) ∧
    (∀ y', y' % w = 33 % w →
      ROTL 0x80000001 y' = ROTL 0x80000001 33 ∧ ROTR 0x80000001 y' = ROTR 0x80000001 33)) :=
  ⟨by decide, ROTL_ROTR_circular 0x80000001 33 (by decide)⟩

/-- C10 (what the source does). In `ROTL(x, y)` and `ROTR(x, y)` the count of
the first shift, `y & (w - 1)`, is always in `0..31`; the count of the second
shift, `w - (y & (w - 1))`, is in `0..31` exactly when `y mod 32 ≠ 0`, and is
the full width `32` when `y mod 32 = 0`, as for `y = 0`.  `RC5_SETUP` on the
key of the driver reaches it: in mixing pass `k = 45` the second rotation is
`ROTL(L[j] + (A + B), (A + B))` with `(A + B) mod 32 = 0`. -/
theorem ROT_second_shift_count :
    (∀ x y, ROTL x y = shl x (ROTL_counts y).1 ||| shr x (ROTL_counts y).2) ∧
    (∀ x y, ROTR x y = shr x (ROTR_counts y).1 ||| shl x (ROTR_counts y).2) ∧
    (∀ y, (ROTL_counts y).1 < w ∧ (ROTR_counts y).1 < w) ∧
    (∀ y, ((ROTL_counts y).2 < w ↔ y % w ≠ 0) ∧ ((ROTR_counts y).2 < w ↔ y % w ≠ 0)) ∧
    (ROTL_counts 0).2 = w ∧ (ROTR_counts 0).2 = w ∧
    ((mixLoop 45 (mixStart katKey)).bind fun m =>
      (mixStep m).map fun m' => (ROTL_counts (add32 m'.A m.B)).2) = some w := by
  refine ⟨fun _ _ => rfl, fun _ _ => rfl, ?_, ?_, by decide, by decide, by decide!⟩
  · intro y
    have hs : y % 32 < 32 := Nat.mod_lt _ (by norm_num)
    simp only [ROTL_counts, ROTR_counts, mask_eq_mod]
    unfold w
    omega
  · intro y
    have hs : y % 32 < 32 := Nat.mod_lt _ (by norm_num)
    simp only [ROTL_counts, ROTR_counts, mask_eq_mod]
    unfold w
    omega

/-! ## What `RC5_SETUP` assigns -/

theorem rd_append {S : List Nat} (X : List Nat) {i : Nat} (h : i < S.length) :
    rd (S ++ X) i = rd S i := by
  simp only [rd, List.getElem?_append_left h]

theorem wr_append {S : List Nat} (X : List Nat) {i : Nat} (v : Nat) (h : i < S.length) :
    wr (S ++ X) i v = some (S.set i v ++ X) := by
  rw [wr_lt v (show i < (S ++ X).length by rw [List.length_append]; omega),
    List.set_append_left i v h]

theorem initS_append (S0 X : List Nat) (h : S0.length = t) :
    initS (S0 ++ X) = some (initTable ++ X) := by
  have h0 : 0 < S0.length := by rw [h]; decide
  have h0' : 0 < (S0 ++ X).length := by rw [List.length_append]; omega
  obtain ⟨S1, e1, len1, low1, high1⟩ :=
    initLoop_spec (t - 1) ((S0 ++ X).set 0 P)
      (by rw [List.length_set, List.length_append, h]; unfold t; omega)
      (by rw [List.getElem?_set_self h0'])
  have : S1 = initTable ++ X := by
    apply List.ext_getElem?
    intro i
    by_cases hi : i < t
    · rw [low1 i (by omega), List.getElem?_append_left (by rw [initTable_length]; exact hi)]
      simp [initTable, List.getElem?_range hi, w]
    · have hi' : t - 1 < i := by unfold t at *; omega
      have hne : 0 ≠ i := by unfold t at *; omega
      rw [high1 i hi', List.getElem?_set_ne hne,
        List.getElem?_append_right (by rw [h]; omega),
        List.getElem?_append_right (by rw [initTable_length]; omega), h, initTable_length]
  subst this
  simp [initS, wr_lt P h0', e1]

/-- A pass of the mixing loop, for indices inside the arrays `S` and `L`. -/
theorem mixStep_of_lt (m : Mix) (hiS : m.i < m.S.length) (hjL : m.j < m.L.length) :
    mixStep m = some ⟨ROTL (add32 (m.S.getD m.i 0) (add32 m.A m.B)) 3,
      ROTL (add32 (m.L.getD m.j 0) (add32 (ROTL (add32 (m.S.getD m.i 0) (add32 m.A m.B)) 3) m.B))
        (add32 (ROTL (add32 (m.S.getD m.i 0) (add32 m.A m.B)) 3) m.B),
      (m.i + 1) % t, (m.j + 1) % c,
      m.S.set m.i (ROTL (add32 (m.S.getD m.i 0) (add32 m.A m.B)) 3),
      m.L.set m.j (ROTL (add32 (m.L.getD m.j 0)
        (add32 (ROTL (add32 (m.S.getD m.i 0) (add32 m.A m.B)) 3) m.B))
        (add32 (ROTL (add32 (m.S.getD m.i 0) (add32 m.A m.B)) 3) m.B))⟩ := by
  simp only [mixStep, rd_eq_getD hiS, rd_eq_getD hjL, wr_lt _ hiS, wr_lt _ hjL,
    Option.bind_eq_bind, Option.some_bind, Option.pure_def]

theorem mixStep_withTail (X : List Nat) (m : Mix) (h : MixInv m) :
    mixStep (withTail X m) = (mixStep m).map (withTail X) := by
  obtain ⟨hS, hL, hi, hj, _⟩ := h
  have hiS : m.i < m.S.length := by omega
  have hjL : m.j < m.L.length := by omega
  have hiS' : (withTail X m).i < (withTail X m).S.length := by
    simp only [withTail, List.length_append]; omega
  rw [mixStep_of_lt m hiS hjL, mixStep_of_lt (withTail X m) hiS' hjL]
  simp only [withTail, Option.map_some', List.getD_append _ _ _ _ hiS,
    List.set_append_left _ _ hiS]

theorem mixLoop_withTail (X : List Nat) (n : Nat) (m : Mix) (h : MixInv m) :
    mixLoop n (withTail X m) = (mixLoop n m).map (withTail X) := by
  induction n generalizing m with
  | zero => rfl
  | succ n ih =>
    obtain ⟨m1, e1, inv1⟩ := mixStep_some m h
    rw [mixLoop, mixLoop, mixStep_withTail X m h, e1, Option.map_some', Option.some_bind,
      Option.some_bind, ih m1 inv1]

theorem RC5_SETUP_append (K L0 S0 X : List Nat) (hK : K.length = b) (hL : L0.length = c)
    (hS : S0.length = t) :
    RC5_SETUP K L0 (S0 ++ X) = (RC5_SETUP K L0 S0).map (fun S => S ++ X) := by
  rw [RC5_SETUP_eq K L0 S0 hK hL hS]
  unfold RC5_SETUP
  rw [packKey_eq K L0 hK hL, initS_append S0 X hS]
  simp only [Option.bind_eq_bind, Option.some_bind]
  have e := mixLoop_withTail X (3 * t) (mixStart K) (mixStart_inv K)
  simp only [withTail, mixStart] at e
  unfold mixStart
  rw [e]
  cases mixLoop (3 * t) ⟨0, 0, 0, 0, initTable, keyWords K⟩ <;> rfl

/-! ## Indices used by the loops -/

theorem rd_isSome_iff (a : List Nat) (i : Nat) : (rd a i).isSome ↔ i < a.length := by
  simp only [rd]
  by_cases h : i < a.length
  · simp [List.getElem?_eq_getElem h, h]
  · simp [List.getElem?_eq_none (not_lt.mp h), h]

theorem wr_isSome_iff (a : List Nat) (i v : Nat) : (wr a i v).isSome ↔ i < a.length := by
  by_cases h : i < a.length <;> simp [wr, h]

theorem RC5_DECRYPT_rounds_some (n : Nat) (S : List Nat) (ct : Nat × Nat)
    (h : 2 * n + 1 < S.length) : ∃ p, RC5_DECRYPT_rounds n S ct = some p := by
  obtain ⟨AB, hAB⟩ := decRounds_some S n ct h
  have h0 : 0 < S.length := by omega
  have h1 : 1 < S.length := by omega
  exact ⟨(sub32 AB.1 (S.getD 0 0), sub32 AB.2 (S.getD 1 0)),
    by simp only [RC5_DECRYPT_rounds, hAB, rd_eq_getD h0, rd_eq_getD h1,
      Option.bind_eq_bind, Option.some_bind, Option.pure_def]⟩

theorem encRound_short (S : List Nat) (i : Nat) (AB : Nat × Nat) (h : S.length ≤ 2 * i + 1) :
    encRound S i AB = none := by
  have e : rd S (2 * i + 1) = none := List.getElem?_eq_none h
  cases h0 : rd S (2 * i) <;> simp [encRound, h0, e]

/-- With a table one word short of `t`, `RC5_ENCRYPT` leaves the table: the
index `2 * r + 1 = 25` is read. -/
theorem RC5_ENCRYPT_short_table (S : List Nat) (pt : Nat × Nat) (h : S.length < t) :
    RC5_ENCRYPT S pt = none := by
  have e : ∀ AB, encRounds S r AB = none := by
    intro AB
    show encRounds S (11 + 1) AB = none
    rw [encRounds]
    cases encRounds S 11 AB with
    | none => rfl
    | some AB' => exact encRound_short S 12 AB' (by unfold t at h; omega)
  unfold RC5_ENCRYPT RC5_ENCRYPT_rounds
  cases h0 : rd S 0 <;> cases h1 : rd S 1 <;> simp [e]

theorem mixTrace_eq (n : Nat) (m : Mix) (h : MixInv m) :
    mixTrace n m = (List.range n).map (fun k => ((m.i + k) % t, (m.j + k) % c)) := by
  induction n generalizing m with
  | zero => rfl
  | succ n ih =>
    have hi : m.i < t := h.2.2.1
    have hj : m.j < c := h.2.2.2.1
    rw [mixTrace, mixStep_eq_spec_mix m h]
    simp only [ih (spec_mix m) (spec_mix_inv m h), List.range_succ_eq_map, List.map_cons,
      List.map_map]
    have e0 : ((m.i + 0) % t, (m.j + 0) % c) = (m.i, m.j) := by
      rw [Nat.add_zero, Nat.add_zero, Nat.mod_eq_of_lt hi, Nat.mod_eq_of_lt hj]
    rw [e0]
    congr 1
    apply List.map_congr_left
    intro k _
    have e1 : ((m.i + 1) % t + k) % t = (m.i + (k + 1)) % t := by unfold t; omega
    have e2 : ((m.j + 1) % c + k) % c = (m.j + (k + 1)) % c := by unfold c; omega
    show (((spec_mix m).i + k) % t, ((spec_mix m).j + k) % c) = _
    show (((m.i + 1) % t + k) % t, ((m.j + 1) % c + k) % c) = _
    rw [e1, e2]
    rfl

theorem dump_isSome_iff (S : List Nat) (is : List Nat) :
    (dump S is).isSome ↔ ∀ i ∈ is, i < S.length := by
  induction is with
  | nil => simp [dump]
  | cons i is ih =>
    have key : (dump S (i :: is)).isSome = ((rd S i).isSome && (dump S is).isSome) := by
      rw [dump]
      cases rd S i <;> cases dump S is <;> rfl
    rw [key, Bool.and_eq_true, rd_isSome_iff, ih, List.forall_mem_cons]

theorem wr_length {a a' : List Nat} {i v : Nat} (h : wr a i v = some a') :
    a'.length = a.length := by
  unfold wr at h
  split at h
  · cases h
    simp
  · cases h

theorem initLoop_length (n : Nat) (S S' : List Nat) (h : initLoop n S = some S') :
    S'.length = S.length := by
  induction n generalizing S' with
  | zero =>
    cases h
    rfl
  | succ n ih =>
    simp only [initLoop, Option.bind_eq_bind, Option.bind_eq_some] at h
    obtain ⟨S1, h1, p, _, h3⟩ := h
    rw [wr_length h3, ih S1 h1]

theorem initS_length (S0 S1 : List Nat) (h : initS S0 = some S1) : S1.length = S0.length := by
  simp only [initS, Option.bind_eq_bind, Option.bind_eq_some] at h
  obtain ⟨S, h1, h2⟩ := h
  rw [initLoop_length _ _ _ h2, wr_length h1]

theorem dumpAfterInit_none (S : List Nat) (h : S.length ≤ t) : dump S dumpAfterInit = none := by
  cases hd : dump S dumpAfterInit with
  | none => rfl
  | some vs =>
    have := (dump_isSome_iff S dumpAfterInit).mp (by rw [hd]; rfl) t (by simp [dumpAfterInit])
    omega

theorem RC5_SETUP_printing_none (K L0 S0 : List Nat) (h : S0.length ≤ t) :
    RC5_SETUP_printing K L0 S0 = none := by
  unfold RC5_SETUP_printing
  simp only [Option.bind_eq_bind]
  cases packKey K L0 with
  | none => rfl
  | some L =>
    simp only [Option.some_bind]
    cases dump L (List.range c) with
    | none => rfl
    | some vs =>
      simp only [Option.some_bind]
      cases hS : initS S0 with
      | none => rfl
      | some S1 =>
        have e := dumpAfterInit_none S1 (by rw [initS_length S0 S1 hS]; exact h)
        simp only [Option.some_bind, e, Option.none_bind]

theorem downFrom_packBodyLog (K : List Nat) (n : Nat) (L tr : List Nat) :
    downFrom (packBodyLog K) n (L, tr) =
      (downFrom (packBody K) n L).map (fun L' => (L', tr ++ (List.range (n + 1)).reverse)) := by
  induction n generalizing L tr with
  | zero => rfl
  | succ n ih =>
    rw [downFrom, downFrom, packBodyLog]
    cases packBody K (n + 1) L with
    | none => rfl
    | some L1 =>
      simp only [Option.map_some', Option.some_bind, ih]
      have e : (List.range (n + 1 + 1)).reverse = (n + 1) :: (List.range (n + 1)).reverse := by
        rw [List.range_succ, List.reverse_append]
        rfl
      rw [e, List.append_assoc]
      rfl

/-! ## Further statements of the design document -/

/-- C11. Table length: for every 16-byte key `K`, `RC5_SETUP` returns a table
of exactly `t = 2 (r + 1) = 26` words; it assigns every index `0..25` (the
table it returns is the same whatever `S` held on entry) and no other index
(cells placed after the 26 words of `S` are returned as they were). -/
theorem RC5_SETUP_table_length (K L0 S0 : List Nat) (hK : K.length = b)
    (hL : L0.length = c) (hS : S0.length = t) :
    t = 2 * (r + 1) ∧ t = 26 ∧
    ∃ S, RC5_SETUP K L0 S0 = some S ∧ S.length = t ∧
      (∀ S0' : List Nat, S0'.length = t → RC5_SETUP K L0 S0' = some S) ∧
      (∀ X : List Nat, RC5_SETUP K L0 (S0 ++ X) = some (S ++ X)) := by
  obtain ⟨S, e, len, _⟩ := RC5_SETUP_table K L0 S0 hK hL hS
  refine ⟨rfl, rfl, S, e, len, ?_, ?_⟩
  · intro S0' hS'
    rw [RC5_SETUP_eq K L0 S0' hK hL hS', ← RC5_SETUP_eq K L0 S0 hK hL hS, e]
  · intro X
    rw [RC5_SETUP_append K L0 S0 X hK hL hS, e]
    rfl

theorem RC5_SETUP_table_length_witness :
    (katKey.length = b ∧ [1, 2, 3, 4].length = c ∧ (List.replicate 26 7).length = t) ∧
    (t = 2 * (r + 1) ∧ t = 26 ∧
    ∃ S, RC5_SETUP katKey [1, 2, 3, 4] (List.replicate 26 7) = some S ∧ S.length = t ∧
      (∀ S0' : List Nat, S0'.length = t → RC5_SETUP katKey [1, 2, 3, 4] S0' = some S) ∧
      (∀ X : List Nat,
        RC5_SETUP katKey [1, 2, 3, 4] (List.replicate 26 7 ++ X) = some (S ++ X))) :=
  ⟨⟨by decide, by decide, by decide⟩,
    RC5_SETUP_table_length katKey [1, 2, 3, 4] (List.replicate 26 7) (by decide) (by decide)
      (by decide)⟩

/-- C12. Read-only table: on a memory with a 26-word table `S` and two 2-word
block buffers, `RC5_ENCRYPT` and `RC5_DECRYPT` return, and the table after the
call is the table before the call; `RC5_ENCRYPT` changes `ct` only (to the
block it computes) and `RC5_DECRYPT` changes `pt` only. -/
theorem RC5_block_functions_read_only (σ : Mem) (hS : σ.S.length = t)
    (hpt : σ.pt.length = 2) (hct : σ.ct.length = 2) :
    (∃ σ' x, RC5_ENCRYPT_mem σ = some σ' ∧ σ'.S = σ.S ∧ σ'.pt = σ.pt ∧
      RC5_ENCRYPT σ.S (σ.pt.getD 0 0, σ.pt.getD 1 0) = some x ∧ σ'.ct = [x.1, x.2]) ∧
    (∃ σ' p, RC5_DECRYPT_mem σ = some σ' ∧ σ'.S = σ.S ∧ σ'.ct = σ.ct ∧
      RC5_DECRYPT σ.S (σ.ct.getD 0 0, σ.ct.getD 1 0) = some p ∧ σ'.pt = [p.1, p.2]) := by
  have hlen : 2 * r + 1 < σ.S.length := by rw [hS]; decide
  have p0 : 0 < σ.pt.length := by omega
  have p1 : 1 < σ.pt.length := by omega
  have c0 : 0 < σ.ct.length := by omega
  have c1 : 1 < σ.ct.length := by omega
  obtain ⟨a0, a1, hσp⟩ : ∃ a0 a1, σ.pt = [a0, a1] := by
    match h : σ.pt, hpt with
    | [a0, a1], _ => exact ⟨a0, a1, rfl⟩
  obtain ⟨b0, b1, hσc⟩ : ∃ b0 b1, σ.ct = [b0, b1] := by
    match h : σ.ct, hct with
    | [b0, b1], _ => exact ⟨b0, b1, rfl⟩
  constructor
  · have e := RC5_ENCRYPT_rounds_eq_spec r σ.S (σ.pt.getD 0 0, σ.pt.getD 1 0) hlen
    refine ⟨{ σ with ct := [(spec_encrypt σ.S (σ.pt.getD 0 0, σ.pt.getD 1 0) r).1,
      (spec_encrypt σ.S (σ.pt.getD 0 0, σ.pt.getD 1 0) r).2] }, _, ?_, rfl, rfl, e, rfl⟩
    simp only [RC5_ENCRYPT_mem, rd_eq_getD p0, rd_eq_getD p1, RC5_ENCRYPT, e,
      Option.bind_eq_bind, Option.some_bind, Option.pure_def]
    rw [hσc]
    rfl
  · obtain ⟨p, e⟩ := RC5_DECRYPT_rounds_some r σ.S (σ.ct.getD 0 0, σ.ct.getD 1 0) hlen
    refine ⟨{ σ with pt := [p.1, p.2] }, p, ?_, rfl, rfl, e, rfl⟩
    simp only [RC5_DECRYPT_mem, rd_eq_getD c0, rd_eq_getD c1, RC5_DECRYPT, e,
      Option.bind_eq_bind, Option.some_bind, Option.pure_def]
    rw [hσp]
    rfl

theorem RC5_block_functions_read_only_witness :
    ((⟨katTable, [0x33221100, 0x77665544], [0x9B14DC2D, 0x9E8B08CF]⟩ : Mem).S.length = t ∧
      (⟨katTable, [0x33221100, 0x77665544], [0x9B14DC2D, 0x9E8B08CF]⟩ : Mem).pt.length = 2 ∧
      (⟨katTable, [0x33221100, 0x77665544], [0x9B14DC2D, 0x9E8B08CF]⟩ : Mem).ct.length = 2) ∧
    ((∃ σ' x, RC5_ENCRYPT_mem ⟨katTable, [0x33221100, 0x77665544], [0x9B14DC2D, 0x9E8B08CF]⟩ =
        some σ' ∧ σ'.S = katTable ∧ σ'.pt = [0x33221100, 0x77665544] ∧
      RC5_ENCRYPT katTable (0x33221100, 0x77665544) = some x ∧ σ'.ct = [x.1, x.2]) ∧
    (∃ σ' p, RC5_DECRYPT_mem ⟨katTable, [0x33221100, 0x77665544], [0x9B14DC2D, 0x9E8B08CF]⟩ =
        some σ' ∧ σ'.S = katTable ∧ σ'.ct = [0x9B14DC2D, 0x9E8B08CF] ∧
      RC5_DECRYPT katTable (0x9B14DC2D, 0x9E8B08CF) = some p ∧ σ'.pt = [p.1, p.2])) :=
  ⟨⟨by decide, by decide, by decide⟩,
    RC5_block_functions_read_only
      ⟨katTable, [0x33221100, 0x77665544], [0x9B14DC2D, 0x9E8B08CF]⟩ (by decide) (by decide)
      (by decide)⟩

/-- C13. Zero rounds: with the round count `r` replaced by `0` the round loop of
`RC5_ENCRYPT` runs no pass, and for every block `(P0, P1)` and every table `S`
(of at least the two words read) the output is
`((P0 + S[0]) mod 2^32, (P1 + S[1]) mod 2^32)`. -/
theorem RC5_ENCRYPT_zero_rounds (S : List Nat) (P0 P1 : Nat) (h : 2 ≤ S.length) :
    RC5_ENCRYPT_rounds 0 S (P0, P1) =
      some ((P0 + S.getD 0 0) % 2 ^ 32, (P1 + S.getD 1 0) % 2 ^ 32) ∧
    (∀ AB, encRounds S 0 AB = some AB) ∧
    RC5_ENCRYPT S (P0, P1) = RC5_ENCRYPT_rounds r S (P0, P1) := by
  have h0 : 0 < S.length := by omega
  have h1 : 1 < S.length := by omega
  refine ⟨?_, fun _ => rfl, rfl⟩
  simp only [RC5_ENCRYPT_rounds, rd_eq_getD h0, rd_eq_getD h1, Option.bind_eq_bind,
    Option.some_bind, encRounds, add32, w]

theorem RC5_ENCRYPT_zero_rounds_witness :
    2 ≤ [0xb7e15163, 0x5618cb1c].length ∧
    (RC5_ENCRYPT_rounds 0 [0xb7e15163, 0x5618cb1c] (0x33221100, 0xffffffff) =
      some ((0x33221100 + [0xb7e15163, 0x5618cb1c].getD 0 0) % 2 ^ 32,
        (0xffffffff + [0xb7e15163, 0x5618cb1c].getD 1 0) % 2 ^ 32) ∧
    (∀ AB, encRounds [0xb7e15163, 0x5618cb1c] 0 AB = some AB) ∧
    RC5_ENCRYPT [0xb7e15163, 0x5618cb1c] (0x33221100, 0xffffffff) =
      RC5_ENCRYPT_rounds r [0xb7e15163, 0x5618cb1c] (0x33221100, 0xffffffff)) :=
  ⟨by decide, RC5_ENCRYPT_zero_rounds [0xb7e15163, 0x5618cb1c] 0x33221100 0xffffffff
    (by decide)⟩

/-- C14. Single-round inverse: for 32-bit words `A`, `B` and round-key words
`s0`, `s1`, with `A2 = ROTL(A ^ B, B) + s0` and `B2 = ROTL(B ^ A2, A2) + s1`
the decrypt round `B' = ROTR(B2 - s1, A2) ^ A2`, `A' = ROTR(A2 - s0, B') ^ B'`
gives `(A', B') = (A, B)`; these are the round bodies of `RC5_ENCRYPT` and
`RC5_DECRYPT` at any counter value `i` with `S[2i] = s0`, `S[2i+1] = s1`. -/
theorem decrypt_round_inverts_encrypt_round (A B s0 s1 : Nat) (hA : A < 2 ^ w)
    (hB : B < 2 ^ w) (hs0 : s0 < 2 ^ w) (hs1 : s1 < 2 ^ w) :
    let A2 := add32 (ROTL (A ^^^ B) B) s0
    let B2 := add32 (ROTL (B ^^^ A2) A2) s1
    let B' := ROTR (sub32 B2 s1) A2 ^^^ A2
    let A' := ROTR (sub32 A2 s0) B' ^^^ B'
    (A', B') = (A, B) ∧
    ∀ (S : List Nat) (i : Nat), rd S (2 * i) = some s0 → rd S (2 * i + 1) = some s1 →
      encRound S i (A, B) = some (A2, B2) ∧ decRound S i (A2, B2) = some (A', B') := by
  intro A2 B2 B' A'
  have hA' : A < 2 ^ 32 := hA
  have hB' : B < 2 ^ 32 := hB
  have x1 : A ^^^ B < 2 ^ 32 := Nat.xor_lt_two_pow hA' hB'
  have r1 := ROTL_lt (A ^^^ B) B x1
  have a1 : A2 < 2 ^ 32 := add32_lt _ _
  have x2 : B ^^^ A2 < 2 ^ 32 := Nat.xor_lt_two_pow hB' a1
  have r2 := ROTL_lt (B ^^^ A2) A2 x2
  have eB : B' = B := by
    show ROTR (sub32 (add32 (ROTL (B ^^^ A2) A2) s1) s1) A2 ^^^ A2 = B
    rw [sub32_add32 _ _ r2 hs1, ROTR_ROTL _ _ x2, Nat.xor_cancel_right]
  have eA : A' = A := by
    show ROTR (sub32 (add32 (ROTL (A ^^^ B) B) s0) s0) B' ^^^ B' = A
    rw [eB, sub32_add32 _ _ r1 hs0, ROTR_ROTL _ _ x1, Nat.xor_cancel_right]
  refine ⟨by rw [eA, eB], ?_⟩
  intro S i h0 h1
  constructor
  · simp only [encRound, h0, h1, Option.bind_eq_bind, Option.some_bind, Option.pure_def]
  · simp only [decRound, h0, h1, Option.bind_eq_bind, Option.some_bind, Option.pure_def]

theorem decrypt_round_inverts_encrypt_round_witness :
    (0x33221100 < 2 ^ w ∧ 0xffffffe0 < 2 ^ w ∧ 0xb7e15163 < 2 ^ w ∧ 0x5618cb1c < 2 ^ w) ∧
    (let A2 := add32 (ROTL (0x33221100 ^^^ 0xffffffe0) 0xffffffe0) 0xb7e15163
    let B2 := add32 (ROTL (0xffffffe0 ^^^ A2) A2) 0x5618cb1c
    let B' := ROTR (sub32 B2 0x5618cb1c) A2 ^^^ A2
    let A' := ROTR (sub32 A2 0xb7e15163) B' ^^^ B'
    (A', B') = (0x33221100, 0xffffffe0) ∧
    ∀ (S : List Nat) (i : Nat), rd S (2 * i) = some 0xb7e15163 →
      rd S (2 * i + 1) = some 0x5618cb1c →
      encRound S i (0x33221100, 0xffffffe0) = some (A2, B2) ∧
        decRound S i (A2, B2) = some (A', B')) :=
  ⟨⟨by decide, by decide, by decide, by decide⟩,
    decrypt_round_inverts_encrypt_round 0x33221100 0xffffffe0 0xb7e15163 0x5618cb1c
      (by decide) (by decide) (by decide) (by decide)⟩

theorem iterate_spec_mix_inv (n : Nat) (m : Mix) (h : MixInv m) :
    MixInv (Nat.iterate spec_mix n m) := by
  induction n generalizing m with
  | zero => exact h
  | succ n ih => exact ih (spec_mix m) (spec_mix_inv m h)

theorem iterate_spec_mix_index (n : Nat) (m : Mix) (h : MixInv m) :
    (Nat.iterate spec_mix n m).i = (m.i + n) % t ∧
      (Nat.iterate spec_mix n m).j = (m.j + n) % c := by
  induction n generalizing m with
  | zero =>
    have hi : m.i < t := h.2.2.1
    have hj : m.j < c := h.2.2.2.1
    exact ⟨(Nat.mod_eq_of_lt hi).symm, (Nat.mod_eq_of_lt hj).symm⟩
  | succ n ih =>
    obtain ⟨e1, e2⟩ := ih (spec_mix m) (spec_mix_inv m h)
    have a1 : (spec_mix m).i = (m.i + 1) % t := rfl
    have a2 : (spec_mix m).j = (m.j + 1) % c := rfl
    constructor
    · show (Nat.iterate spec_mix n (spec_mix m)).i = _
      rw [e1, a1]
      unfold t
      omega
    · show (Nat.iterate spec_mix n (spec_mix m)).j = _
      rw [e2, a2]
      unfold c
      omega

/-- Pass `k` of the mixing loop started from `m0`: the variables before and
after it, the two cells it reads, and the two cells it assigns. -/
theorem mixLoop_pass (m0 : Mix) (h : MixInv m0) (k : Nat) :
    ∃ m m' s l, mixLoop k m0 = some m ∧ mixLoop (k + 1) m0 = some m' ∧
      mixStep m = some m' ∧ m.i = (m0.i + k) % t ∧ m.j = (m0.j + k) % c ∧
      rd m.S m.i = some s ∧ rd m.L m.j = some l ∧
      m'.A = ROTL (add32 s (add32 m.A m.B)) 3 ∧
      m'.B = ROTL (add32 l (add32 m'.A m.B)) (add32 m'.A m.B) ∧
      m'.S = m.S.set m.i m'.A ∧ m'.L = m.L.set m.j m'.B ∧
      rd m'.S m.i = some m'.A ∧ rd m'.L m.j = some m'.B := by
  have inv := iterate_spec_mix_inv k m0 h
  obtain ⟨ei, ej⟩ := iterate_spec_mix_index k m0 h
  obtain ⟨hS, hL, hi, hj, _⟩ := inv
  have hiS : (Nat.iterate spec_mix k m0).i < (Nat.iterate spec_mix k m0).S.length := by omega
  have hjL : (Nat.iterate spec_mix k m0).j < (Nat.iterate spec_mix k m0).L.length := by omega
  have estep := mixStep_of_lt (Nat.iterate spec_mix k m0) hiS hjL
  have espec := mixStep_eq_spec_mix (Nat.iterate spec_mix k m0) (iterate_spec_mix_inv k m0 h)
  have enext : Nat.iterate spec_mix (k + 1) m0 = spec_mix (Nat.iterate spec_mix k m0) :=
    Function.iterate_succ_apply' spec_mix k m0
  have e' : spec_mix (Nat.iterate spec_mix k m0) = _ := Option.some.inj (espec.symm.trans estep)
  refine ⟨Nat.iterate spec_mix k m0, spec_mix (Nat.iterate spec_mix k m0),
    (Nat.iterate spec_mix k m0).S.getD (Nat.iterate spec_mix k m0).i 0,
    (Nat.iterate spec_mix k m0).L.getD (Nat.iterate spec_mix k m0).j 0,
    mixLoop_eq_iterate k m0 h, ?_, espec, ei, ej, rd_eq_getD hiS, rd_eq_getD hjL, ?_, ?_, ?_, ?_,
    ?_, ?_⟩
  · rw [mixLoop_eq_iterate (k + 1) m0 h, enext]
  · rw [e']
  · rw [e']
  · rw [e']
  · rw [e']
  · rw [e']
    simp only [rd, List.getElem?_set_self hiS]
  · rw [e']
    simp only [rd, List.getElem?_set_self hjL]

/-- C15. Mixing coverage: for every 16-byte key, pass `k` (`k = 0..77`) of the
mixing loop of `RC5_SETUP` reads `S[k mod 26]` and `L[k mod 4]` and assigns
them `A = ROTL(S[k mod 26] + (A + B), 3)` and
`B = ROTL(L[k mod 4] + (A + B), (A + B))`, leaving the other cells of `S` and
`L` as they were; the table `RC5_SETUP` returns is `S` after pass 77.  So every
cell `S[i]` is assigned by exactly 3 passes and every cell `L[j]` by 19 or 20
passes. -/
theorem mixing_coverage (K L0 S0 : List Nat) (hK : K.length = b) (hL : L0.length = c)
    (hS : S0.length = t) :
    ∃ L S1, packKey K L0 = some L ∧ initS S0 = some S1 ∧
      (∀ k, k < 78 → ∃ m m' s l,
        mixLoop k ⟨0, 0, 0, 0, S1, L⟩ = some m ∧
        mixLoop (k + 1) ⟨0, 0, 0, 0, S1, L⟩ = some m' ∧ mixStep m = some m' ∧
        m.i = k % 26 ∧ m.j = k % 4 ∧
        rd m.S (k % 26) = some s ∧ rd m.L (k % 4) = some l ∧
        m'.A = ROTL (add32 s (add32 m.A m.B)) 3 ∧
        m'.B = ROTL (add32 l (add32 m'.A m.B)) (add32 m'.A m.B) ∧
        m'.S = m.S.set (k % 26) m'.A ∧ m'.L = m.L.set (k % 4) m'.B ∧
        rd m'.S (k % 26) = some m'.A ∧ rd m'.L (k % 4) = some m'.B ∧
        (∀ i, i ≠ k % 26 → rd m'.S i = rd m.S i) ∧ (∀ j, j ≠ k % 4 → rd m'.L j = rd m.L j)) ∧
      (∃ mf, mixLoop (3 * t) ⟨0, 0, 0, 0, S1, L⟩ = some mf ∧ 3 * t = 78 ∧
        RC5_SETUP K L0 S0 = some mf.S) ∧
      (∀ i, i < 26 → ((List.range 78).filter (fun k => k % 26 = i)).length = 3) ∧
      (∀ j, j < 4 → ((List.range 78).filter (fun k => k % 4 = j)).length = 19 ∨
        ((List.range 78).filter (fun k => k % 4 = j)).length = 20) ∧
      mixTrace (3 * t) ⟨0, 0, 0, 0, S1, L⟩ = (List.range 78).map (fun k => (k % 26, k % 4)) ∧
      (∀ i, i < 26 → ((mixTrace (3 * t) ⟨0, 0, 0, 0, S1, L⟩).map Prod.fst).count i = 3) ∧
      (∀ j, j < 4 → ((mixTrace (3 * t) ⟨0, 0, 0, 0, S1, L⟩).map Prod.snd).count j = 19 ∨
        ((mixTrace (3 * t) ⟨0, 0, 0, 0, S1, L⟩).map Prod.snd).count j = 20) := by
  have e : mixTrace (3 * t) ⟨0, 0, 0, 0, initTable, keyWords K⟩ =
      (List.range 78).map (fun k => (k % 26, k % 4)) := by
    have e0 := mixTrace_eq (3 * t) (mixStart K) (mixStart_inv K)
    have e1 : (3 * t : Nat) = 78 := rfl
    rw [e1] at e0
    show mixTrace (3 * t) (mixStart K) = _
    rw [e1, e0]
    apply List.map_congr_left
    intro k _
    show ((0 + k) % 26, (0 + k) % 4) = (k % 26, k % 4)
    rw [Nat.zero_add]
  obtain ⟨mf, hmf, _⟩ := mixLoop_some (3 * t) (mixStart K) (mixStart_inv K)
  refine ⟨keyWords K, initTable, packKey_eq K L0 hK hL, initS_eq S0 hS, ?_,
    ⟨mf, hmf, rfl, ?_⟩, by decide, by decide, e, ?_, ?_⟩
  · intro k _
    obtain ⟨m, m', s, l, h1, h2, h3, hi, hj, h4, h5, h6, h7, h8, h9, h10, h11⟩ :=
      mixLoop_pass (mixStart K) (mixStart_inv K) k
    have hi' : m.i = k % 26 := by
      rw [hi]
      show (0 + k) % 26 = k % 26
      rw [Nat.zero_add]
    have hj' : m.j = k % 4 := by
      rw [hj]
      show (0 + k) % 4 = k % 4
      rw [Nat.zero_add]
    rw [hi'] at h4 h8 h10
    rw [hj'] at h5 h9 h11
    refine ⟨m, m', s, l, h1, h2, h3, hi', hj', h4, h5, h6, h7, h8, h9, h10, h11, ?_, ?_⟩
    · intro i hne
      rw [h8]
      simp only [rd]
      exact List.getElem?_set_ne (Ne.symm hne)
    · intro j hne
      rw [h9]
      simp only [rd]
      exact List.getElem?_set_ne (Ne.symm hne)
  · rw [RC5_SETUP_eq K L0 S0 hK hL hS, hmf]
    rfl
  · rw [e]
    decide
  · rw [e]
    decide

theorem mixing_coverage_witness :
    (katKey.length = b ∧ [1, 2, 3, 4].length = c ∧ (List.replicate 26 7).length = t) ∧
    ∃ L S1, packKey katKey [1, 2, 3, 4] = some L ∧ initS (List.replicate 26 7) = some S1 ∧
      (∀ k, k < 78 → ∃ m m' s l,
        mixLoop k ⟨0, 0, 0, 0, S1, L⟩ = some m ∧
        mixLoop (k + 1) ⟨0, 0, 0, 0, S1, L⟩ = some m' ∧ mixStep m = some m' ∧
        m.i = k % 26 ∧ m.j = k % 4 ∧
        rd m.S (k % 26) = some s ∧ rd m.L (k % 4) = some l ∧
        m'.A = ROTL (add32 s (add32 m.A m.B)) 3 ∧
        m'.B = ROTL (add32 l (add32 m'.A m.B)) (add32 m'.A m.B) ∧
        m'.S = m.S.set (k % 26) m'.A ∧ m'.L = m.L.set (k % 4) m'.B ∧
        rd m'.S (k % 26) = some m'.A ∧ rd m'.L (k % 4) = some m'.B ∧
        (∀ i, i ≠ k % 26 → rd m'.S i = rd m.S i) ∧ (∀ j, j ≠ k % 4 → rd m'.L j = rd m.L j)) ∧
      (∃ mf, mixLoop (3 * t) ⟨0, 0, 0, 0, S1, L⟩ = some mf ∧ 3 * t = 78 ∧
        RC5_SETUP katKey [1, 2, 3, 4] (List.replicate 26 7) = some mf.S) ∧
      (∀ i, i < 26 → ((List.range 78).filter (fun k => k % 26 = i)).length = 3) ∧
      (∀ j, j < 4 → ((List.range 78).filter (fun k => k % 4 = j)).length = 19 ∨
        ((List.range 78).filter (fun k => k % 4 = j)).length = 20) ∧
      mixTrace (3 * t) ⟨0, 0, 0, 0, S1, L⟩ = (List.range 78).map (fun k => (k % 26, k % 4)) ∧
      (∀ i, i < 26 → ((mixTrace (3 * t) ⟨0, 0, 0, 0, S1, L⟩).map Prod.fst).count i = 3) ∧
      (∀ j, j < 4 → ((mixTrace (3 * t) ⟨0, 0, 0, 0, S1, L⟩).map Prod.snd).count j = 19 ∨
        ((mixTrace (3 * t) ⟨0, 0, 0, 0, S1, L⟩).map Prod.snd).count j = 20) :=
  ⟨⟨by decide, by decide, by decide⟩,
    mixing_coverage katKey [1, 2, 3, 4] (List.replicate 26 7) (by decide) (by decide)
      (by decide)⟩

/-- C16. Index safety: every array access of the embedding answers `none`
outside its array and `some` inside; with a 26-word `S`, a 16-byte `K` and a
4-word `L`, `RC5_ENCRYPT`, `RC5_DECRYPT`, the packing, initialisation and
mixing loops and `RC5_SETUP` all return `some`, so none of their accesses
leaves its array; the round indices `2i`, `2i+1` for `i = 1..12` are below 26
and the packing indices `i / u` for `i < 16` are below 4. -/
theorem RC5_index_safety (K L0 S0 S : List Nat) (pt ct : Nat × Nat) (hK : K.length = b)
    (hL : L0.length = c) (hS0 : S0.length = t) (hS : S.length = t) :
    ((∀ a i, (rd a i).isSome ↔ i < a.length) ∧ (∀ a i v, (wr a i v).isSome ↔ i < a.length)) ∧
    (∃ x, RC5_ENCRYPT S pt = some x) ∧ (∃ p, RC5_DECRYPT S ct = some p) ∧
    (∃ L S1 m, packKey K L0 = some L ∧ initS S0 = some S1 ∧
      mixLoop (3 * t) ⟨0, 0, 0, 0, S1, L⟩ = some m) ∧
    (∃ T, RC5_SETUP K L0 S0 = some T) ∧
    (∀ i, 1 ≤ i → i ≤ r → 2 * i < t ∧ 2 * i + 1 < t) ∧ (∀ i, i < b → i / u < c) := by
  have hlen : 2 * r + 1 < S.length := by rw [hS]; decide
  obtain ⟨m, hm, _⟩ := mixLoop_some (3 * t) (mixStart K) (mixStart_inv K)
  obtain ⟨T, hT, _⟩ := RC5_SETUP_table K L0 S0 hK hL hS0
  refine ⟨⟨rd_isSome_iff, wr_isSome_iff⟩, ⟨_, RC5_ENCRYPT_rounds_eq_spec r S pt hlen⟩,
    RC5_DECRYPT_rounds_some r S ct hlen,
    ⟨keyWords K, initTable, m, packKey_eq K L0 hK hL, initS_eq S0 hS0, hm⟩, ⟨T, hT⟩, ?_, ?_⟩
  · intro i h1 h2
    unfold r at h2
    unfold t
    omega
  · intro i hi
    unfold b at hi
    unfold u c w
    omega

theorem RC5_index_safety_witness :
    (katKey.length = b ∧ [1, 2, 3, 4].length = c ∧ (List.replicate 26 7).length = t ∧
      katTable.length = t) ∧
    (((∀ a i, (rd a i).isSome ↔ i < a.length) ∧
      (∀ a i v, (wr a i v).isSome ↔ i < a.length)) ∧
    (∃ x, RC5_ENCRYPT katTable (0x33221100, 0x77665544) = some x) ∧
    (∃ p, RC5_DECRYPT katTable (0x9B14DC2D, 0x9E8B08CF) = some p) ∧
    (∃ L S1 m, packKey katKey [1, 2, 3, 4] = some L ∧ initS (List.replicate 26 7) = some S1 ∧
      mixLoop (3 * t) ⟨0, 0, 0, 0, S1, L⟩ = some m) ∧
    (∃ T, RC5_SETUP katKey [1, 2, 3, 4] (List.replicate 26 7) = some T) ∧
    (∀ i, 1 ≤ i → i ≤ r → 2 * i < t ∧ 2 * i + 1 < t) ∧ (∀ i, i < b → i / u < c)) :=
  ⟨⟨by decide, by decide, by decide, by decide⟩,
    RC5_index_safety katKey [1, 2, 3, 4] (List.replicate 26 7) katTable
      (0x33221100, 0x77665544) (0x9B14DC2D, 0x9E8B08CF) (by decide) (by decide) (by decide)
      (by decide)⟩

/-- C17 (what the source does). The dump after the initialisation loop reads
`S[i]` once more after its loop has left `i = t = 26`, and the dump after the
mixing loop runs `i` up to `sizeof(S) = 104`, so it reads `S[0], ..., S[103]`:
the first dump stays inside an array only if it has more than `t` cells, the
second only if it has at least `sizeof(S)` cells.  With the `printf` reads
kept, `RC5_SETUP` leaves the 26-word table for every key, as on the key of the
driver, where the arithmetic alone returns the table. -/
theorem RC5_SETUP_dump_reads :
    t ∈ dumpAfterInit ∧ sizeof_S = 104 ∧ (∀ i, i ∈ dumpAfterMix ↔ i < 104) ∧
    (∀ S : List Nat, (dump S dumpAfterInit).isSome ↔ t < S.length) ∧
    (∀ S : List Nat, (dump S dumpAfterMix).isSome ↔ sizeof_S ≤ S.length) ∧
    (∀ K L0 S0 : List Nat, t < S0.length ∨ RC5_SETUP_printing K L0 S0 = none) ∧
    RC5_SETUP katKey [0, 0, 0, 0] (List.replicate 26 0) = some katTable ∧
    RC5_SETUP_printing katKey [0, 0, 0, 0] (List.replicate 26 0) = none := by
  refine ⟨by simp [dumpAfterInit], rfl, ?_, ?_, ?_, ?_, ?_, ?_⟩
  · intro i
    show i ∈ List.range 104 ↔ i < 104
    exact List.mem_range
  · intro S
    rw [dump_isSome_iff]
    constructor
    · intro h
      exact h t (by simp [dumpAfterInit])
    · intro h i hi
      simp only [dumpAfterInit, List.mem_append, List.mem_range, List.mem_singleton] at hi
      omega
  · intro S
    rw [dump_isSome_iff]
    constructor
    · intro h
      by_contra hlt
      have := h S.length (List.mem_range.mpr (not_le.mp hlt))
      omega
    · intro h i hi
      have := List.mem_range.mp hi
      omega
  · intro K L0 S0
    by_cases h : t < S0.length
    · exact Or.inl h
    · exact Or.inr (RC5_SETUP_printing_none K L0 S0 (not_lt.mp h))
  · have e : (mixLoop (3 * t) (mixStart katKey)).map Mix.S = some katTable := by decide!
    rw [← e]
    exact RC5_SETUP_eq katKey [0, 0, 0, 0] (List.replicate 26 0) rfl rfl (by decide)
  · exact RC5_SETUP_printing_none _ _ _ (by decide)

/-- C18. Packing loop: for every 16-byte key, the loop
`for (i = b - 1, ...; i != -1; i--)` runs its body for `i = 15, 14, ..., 0`, in
that order and once each (16 passes), and returns; the decrement at `i = 0`
wraps to `2^32 - 1`, the value of `-1`, where the test `i != -1` ends the
loop. -/
theorem packing_loop_visits (K L0 : List Nat) (hK : K.length = b) (hL : L0.length = c) :
    ∃ L, packKey K L0 = some L ∧
      packLoop (packBodyLog K) (b - 1) (L0.set (c - 1) 0, []) =
        some (L, [15, 14, 13, 12, 11, 10, 9, 8, 7, 6, 5, 4, 3, 2, 1, 0]) ∧
      [15, 14, 13, 12, 11, 10, 9, 8, 7, 6, 5, 4, 3, 2, 1, 0].length = b ∧
      sub32 0 1 = neg1 ∧ neg1 = 2 ^ 32 - 1 ∧
      (∀ s, packLoop (packBodyLog K) neg1 s = some s) ∧
      (∀ i s, i ≠ neg1 → packLoop (packBodyLog K) i s =
        (packBodyLog K i s).bind (packLoop (packBodyLog K) (sub32 i 1))) := by
  have hw : wr L0 (c - 1) 0 = some (L0.set (c - 1) 0) :=
    wr_lt 0 (by rw [hL]; decide)
  have hp := packKey_eq K L0 hK hL
  have hp' : packLoop (packBody K) (b - 1) (L0.set (c - 1) 0) = some (keyWords K) := by
    rw [← hp, packKey, hw]
    rfl
  have h15 : (b - 1 : Nat) = 15 := rfl
  rw [h15] at hp'
  rw [packLoop_eq_downFrom _ 15 (by norm_num)] at hp'
  refine ⟨keyWords K, hp, ?_, rfl, by decide, rfl, fun s => packLoop_exit _ s,
    fun i s h => packLoop_step _ i s h⟩
  rw [h15, packLoop_eq_downFrom _ 15 (by norm_num), downFrom_packBodyLog, hp']
  rfl

theorem packing_loop_visits_witness :
    (katKey.length = b ∧ [1, 2, 3, 4].length = c) ∧
    ∃ L, packKey katKey [1, 2, 3, 4] = some L ∧
      packLoop (packBodyLog katKey) (b - 1) ([1, 2, 3, 4].set (c - 1) 0, []) =
        some (L, [15, 14, 13, 12, 11, 10, 9, 8, 7, 6, 5, 4, 3, 2, 1, 0]) ∧
      [15, 14, 13, 12, 11, 10, 9, 8, 7, 6, 5, 4, 3, 2, 1, 0].length = b ∧
      sub32 0 1 = neg1 ∧ neg1 = 2 ^ 32 - 1 ∧
      (∀ s, packLoop (packBodyLog katKey) neg1 s = some s) ∧
      (∀ i s, i ≠ neg1 → packLoop (packBodyLog katKey) i s =
        (packBodyLog katKey i s).bind (packLoop (packBodyLog katKey) (sub32 i 1))) :=
  ⟨⟨by decide, by decide⟩, packing_loop_visits katKey [1, 2, 3, 4] (by decide) (by decide)⟩

end RC5
